import Mathlib

/-!
Shallow embedding of the example ECS runtime (src/system.h, src/entity_manager.h)
and proofs of the spec's claims about it.

Modelling conventions:
* `uint64_t` entity ids and component values are `Nat`; entity ids are
  allocated by a monotonically increasing counter.  The `uint64_t` wraparound of
  the allocation counter (reachable only after 2^64 allocations) is not
  modelled; the `size_t` wraparound of a store's iteration cursor IS modelled
  (arithmetic mod 2^64), because `--it` at `it == 0` is reachable in ordinary
  runs (removal of the element at index 0 while the cursor is there).
* Component values of every kind are collapsed to `Nat`: the C++ kind types `C`
  only matter through their ids, priorities and stored values.
* Pointers to heap objects are modelled by the keys under which the manager
  stores them: a store pointer by its component id `cid`, an entity pointer by
  its entity id.  The `systems_prioritised` vector of `ISystem*` therefore
  becomes a list of component ids.
* The per-element virtual hooks (`Manage(eid, c)`, `OnAdd`, `OnRemove`) default
  to no-ops in the source; `OnRemove` invocations are additionally recorded in
  a `removeLog` trace field so that "the on-remove hook ran" is expressible.
-/

/-- Modelled from the spec: the fixed maximum component-kind count
`MAX_COMPONENTS`, the size of the `ISystem* systems[MAX_COMPONENTS]` array and
of each entity's membership bitset.  The constant is defined in a header that
is not part of `src/` (main.cpp includes "ecs.h"); the spec only requires it to
be a fixed configuration constant, so a representative value is used. -/
def MAX_COMPONENTS : Nat := 64

/-- Modulus of `size_t` arithmetic (the iteration cursor `it`). -/
def SIZE_MOD : Nat := 2 ^ 64

/-- First index at which the predicate holds: the scan pattern
`for(i = 0; i < xs.size(); ++i) if(p(xs[i])) break;` used by
`SystemBase::GetComponent` and `SystemBase::RemoveComponent`. -/
def scanIdx (p : Nat → Bool) : List Nat → Option Nat
  | [] => none
  | x :: xs => if p x then some 0 else (scanIdx p xs).map (· + 1)

/-- `vector::erase(begin() + i)`: drop the element at index `i`, shifting the
rest down by one. -/
def eraseAt : List Nat → Nat → List Nat
  | [], _ => []
  | _ :: xs, 0 => xs
  | x :: xs, n + 1 => x :: eraseAt xs n

/-- One component store (`SystemBase<C, Priority>`): the two parallel
sequences, the iteration cursor `it`, the compile-time priority, and a trace of
the `OnRemove` hook invocations (entity id, component value). -/
structure SystemS where
  components : List Nat
  ids : List Nat
  it : Nat
  priority : Nat
  removeLog : List (Nat × Nat)
deriving Repr, DecidableEq

/-- `SystemBase::GetComponent`: scan `ids` for the entity id; the returned
pointer `&components[i]` is modelled by the index `i`. -/
def getComponentIdx (s : SystemS) (id : Nat) : Option Nat :=
  scanIdx (· == id) s.ids

/-- `SystemBase::AddComponent`: return the existing component if present,
otherwise emplace the value at the back of `components` and push the entity id
onto `ids` (the `OnAdd` hook defaults to a no-op).  Returns the store and the
index of the returned component. -/
def addComponent (s : SystemS) (id v : Nat) : SystemS × Nat :=
  match getComponentIdx s id with
  | some i => (s, i)
  | none =>
    ({ s with components := s.components ++ [v], ids := s.ids ++ [id] },
     s.components.length)

/-- `SystemBase::RemoveComponent`: scan for the first index `i` with
`ids[i] == id` (the loop bound is `components.size()`); if found, decrement the
cursor when `i <= it` (`--it` on a `size_t`, so mod 2^64), invoke `OnRemove`
(recorded in `removeLog`), and erase index `i` from both parallel sequences. -/
def removeComponent (s : SystemS) (id : Nat) : SystemS :=
  match scanIdx (· == id) (s.ids.take s.components.length) with
  | none => s
  | some i =>
    { s with
      it := if i ≤ s.it then (s.it + (SIZE_MOD - 1)) % SIZE_MOD else s.it,
      removeLog := s.removeLog ++ [(id, s.components.getD i 0)],
      components := eraseAt s.components i,
      ids := eraseAt s.ids i }

/-- One iteration bundle of `SystemBase::Manage`'s loop
`for(it = 0; it < components.size(); ++it) Manage(ids[it], components[it]);`.
The per-element hook receives the visited entity id and component value and may
mutate the whole store (in the source it can reach the store through the
manager); the default hook is a no-op.  Fuel bounds the number of iterations
(every use supplies enough fuel).  The returned trace lists the entity ids the
hook was invoked with, in order. -/
def managePassAux (hook : Nat → Nat → SystemS → SystemS) :
    Nat → SystemS → List Nat → SystemS × List Nat
  | 0, s, tr => (s, tr)
  | fuel + 1, s, tr =>
    if s.it < s.components.length then
      let eid := s.ids.getD s.it 0
      let c := s.components.getD s.it 0
      let s1 := hook eid c s
      managePassAux hook fuel { s1 with it := (s1.it + 1) % SIZE_MOD } (tr ++ [eid])
    else (s, tr)

/-- `SystemBase::Manage` (default update pass): run the cursor loop from
`it = 0`. -/
def managePass (hook : Nat → Nat → SystemS → SystemS) (fuel : Nat)
    (s : SystemS) : SystemS × List Nat :=
  managePassAux hook fuel { s with it := 0 } []

/-- The default per-element hook `Manage(uint64_t, C&) { }`. -/
def noopHook : Nat → Nat → SystemS → SystemS := fun _ _ s => s

/-- A store's `Manage()` with the default no-op per-element hook, as invoked on
a tick for a store without overridden update logic. -/
def sysManage (s : SystemS) : SystemS :=
  (managePass noopHook (s.components.length + 1) s).1

/-- An entity record: its id and its `std::bitset<MAX_COMPONENTS>` of attached
component kinds (the manager back-pointer is implicit: there is one manager). -/
structure EntityS where
  id : Nat
  bits : List Bool
deriving Repr, DecidableEq

/-- The manager: the `ISystem* systems[MAX_COMPONENTS]` array (a store pointer
modelled by `some store`), the priority-sorted `systems_prioritised` vector
(store pointers modelled by their component ids), the entity id allocation
counter, and the id-to-entity map. -/
structure Manager where
  systems : Nat → Option SystemS
  prioritised : List Nat
  entity_ids : Nat
  entities : Nat → Option EntityS

/-- A freshly constructed `EntityManager`. -/
def initMgr : Manager :=
  { systems := fun _ => none, prioritised := [], entity_ids := 0,
    entities := fun _ => none }

/-- Update the systems array at one component id. -/
def updSys (m : Manager) (cid : Nat) (s : Option SystemS) : Manager :=
  { m with systems := fun c => if c = cid then s else m.systems c }

/-- Update the entity map at one entity id. -/
def updEnt (m : Manager) (eid : Nat) (e : Option EntityS) : Manager :=
  { m with entities := fun i => if i = eid then e else m.entities i }

/-- Priority of the store registered under a component id (total function used
to model the `systems_prioritised[i]->GetPriority()` virtual calls; every id in
`prioritised` has a registered store). -/
def prioOf (m : Manager) (c : Nat) : Nat :=
  match m.systems c with
  | some s => s.priority
  | none => 0

/-- The insertion scan of `EntityManager::Systems::Add`: find the first index
whose priority is strictly below the new store's priority and insert there
(after all entries of greater or equal priority). -/
def insertPrior (gp : Nat → Nat) (p : Nat) (cid : Nat) : List Nat → List Nat
  | [] => [cid]
  | x :: xs => if gp x < p then cid :: x :: xs else x :: insertPrior gp p cid xs

/-- `EntityManager::Systems::Add`: no-op if a store already exists for the id
(first registration wins); otherwise store the pointer in the array and insert
it into the prioritised vector. -/
def systemsAdd (m : Manager) (cid : Nat) (sys : SystemS) : Manager :=
  if (m.systems cid).isSome then m
  else
    let m1 := updSys m cid (some sys)
    { m1 with prioritised := insertPrior (prioOf m1) sys.priority cid m1.prioritised }

/-- The deletion loop of `EntityManager::Systems::Delete`:
`for(i = 0; i < v.size(); ++i) if(v[i] == target) v.erase(v.begin() + i);` —
erasing at `i` and then incrementing `i` skips the element that slid into the
erased slot, which this recursion reproduces. -/
def eraseSkip (cid : Nat) : List Nat → List Nat
  | [] => []
  | x :: xs =>
    if x = cid then
      match xs with
      | [] => []
      | y :: ys => y :: eraseSkip cid ys
    else x :: eraseSkip cid xs

/-- `EntityManager::Systems::Delete`: no-op if no store exists for the id;
otherwise remove its entry from the prioritised vector and delete the store. -/
def systemsDelete (m : Manager) (cid : Nat) : Manager :=
  match m.systems cid with
  | none => m
  | some _ =>
    updSys { m with prioritised := eraseSkip cid m.prioritised } cid none

/-- `EntityManager::ReplaceSystem`: delete the existing store for the kind and
register the provided one. -/
def replaceSystem (m : Manager) (cid : Nat) (nsys : SystemS) : Manager :=
  systemsAdd (systemsDelete m cid) cid nsys

/-- The default-constructed `System<T>` built by `EntityManager::GetSystem` on
first use: empty sequences, cursor 0, the kind's compile-time priority (the
`kp` parameter maps each component id to its kind's `Priority` template
argument, `UINT8_MAX` unless specialised). -/
def defaultSystem (kp : Nat → Nat) (k : Nat) : SystemS :=
  { components := [], ids := [], it := 0, priority := kp k, removeLog := [] }

/-- `EntityManager::GetSystem<T>`: create the kind's store by default
construction if it does not exist, then return it. -/
def getSystemS (kp : Nat → Nat) (m : Manager) (k : Nat) : Manager × SystemS :=
  match m.systems k with
  | some s => (m, s)
  | none => (systemsAdd m k (defaultSystem kp k), defaultSystem kp k)

/-- `Entity::Has<K>` for a single kind: read the membership bit. -/
def entityHas (m : Manager) (eid k : Nat) : Bool :=
  match m.entities eid with
  | none => false
  | some e => e.bits.getD k false

/-- `Entity::Add<T>(args...)`: if the membership bit is set, return the
existing component via `GetSystem`/`GetComponent`; otherwise construct the
component in the kind's store (created on first use) and set the bit.  The
returned `T*` is modelled by the component's index in the kind's store.
A call through an entity id with no record (a dangling `Entity*` in the
source, invalid use) is modelled as a no-op returning no component. -/
def entityAdd (kp : Nat → Nat) (m : Manager) (eid k v : Nat) :
    Manager × Option Nat :=
  match m.entities eid with
  | none => (m, none)
  | some e =>
    if e.bits.getD k false then
      let ms := getSystemS kp m k
      (ms.1, getComponentIdx ms.2 eid)
    else
      let ms := getSystemS kp m k
      let si := addComponent ms.2 eid v
      let m2 := updSys ms.1 k (some si.1)
      (updEnt m2 eid (some { e with bits := e.bits.set k true }), some si.2)

/-- `Entity::Get<T>`: `nullptr` straight away if the membership bit is clear,
otherwise look the component up in the kind's store (created on first use). -/
def entityGet (kp : Nat → Nat) (m : Manager) (eid k : Nat) :
    Manager × Option Nat :=
  match m.entities eid with
  | none => (m, none)
  | some e =>
    if e.bits.getD k false = false then (m, none)
    else
      let ms := getSystemS kp m k
      (ms.1, getComponentIdx ms.2 eid)

/-- `Entity::Remove<T>`: `GetSystem<T>()->RemoveComponent(id)` (creating the
store on first use), then clear the membership bit. -/
def entityRemove (kp : Nat → Nat) (m : Manager) (eid k : Nat) : Manager :=
  match m.entities eid with
  | none => m
  | some e =>
    let ms := getSystemS kp m k
    let s' := removeComponent ms.2 eid
    let m2 := updSys ms.1 k (some s')
    updEnt m2 eid (some { e with bits := e.bits.set k false })

/-- `EntityManager::Entities::Create`: allocate the next id (`++entity_ids`;
the `uint64_t` wraparound after 2^64 allocations is not modelled), construct an
entity with a clear bitset and store it under its id. -/
def entitiesCreate (m : Manager) : Manager × Nat :=
  let nid := m.entity_ids + 1
  ({ m with entity_ids := nid,
            entities := fun i =>
              if i = nid then some { id := nid, bits := List.replicate MAX_COMPONENTS false }
              else m.entities i },
   nid)

/-- `EntityManager::Entities::Get`: the map lookup (`nullptr` when absent). -/
def entitiesGet (m : Manager) (id : Nat) : Option EntityS :=
  m.entities id

/-- The removal loop of `EntityManager::Entities::Destroy`: for every index
with a set membership bit, `mgr_systems.Get(i)->RemoveComponent(e)`.  The
source performs no null check on `Get(i)`; `none` marks the null-pointer
dereference (undefined behavior) that would occur if a set bit had no
registered store. -/
def destroyLoop (e : EntityS) (sys : Nat → Option SystemS) :
    List Nat → Option (Nat → Option SystemS)
  | [] => some sys
  | i :: rest =>
    if e.bits.getD i false then
      match sys i with
      | none => none
      | some s =>
        destroyLoop e (fun c => if c = i then some (removeComponent s e.id) else sys c) rest
    else destroyLoop e sys rest

/-- `EntityManager::Entities::Destroy` (reached from `Entity::Destroy`): run
the cascading removal loop over the whole bitset, then erase the entity record
from the map.  `none` marks invalid use (destroy through a dangling pointer) or
the undefined behavior inside the loop. -/
def entitiesDestroy (m : Manager) (eid : Nat) : Option Manager :=
  match m.entities eid with
  | none => none
  | some e =>
    (destroyLoop e m.systems (List.range MAX_COMPONENTS)).map fun sys' =>
      { m with systems := sys',
               entities := fun i => if i = e.id then none else m.entities i }

/-- `EntityManager::Systems::Manage` (one tick): invoke each prioritised
store's `Manage()` in vector order; stores without overridden update logic run
the default pass with the no-op per-element hook. -/
def tickSystems (m : Manager) : Manager :=
  { m with systems := m.prioritised.foldl (fun sys cid =>
      match sys cid with
      | some s => fun c => if c = cid then some (sysManage s) else sys c
      | none => sys) m.systems }

/-- The order in which a tick invokes the stores' update passes: the loop
`for(i = 0; i < systems_prioritised.size(); ++i) systems_prioritised[i]->Manage();`
visits exactly the prioritised vector, in order. -/
def tickTrace (m : Manager) : List Nat := m.prioritised

/-- The public interface of the manager, as exercised by application code:
entity creation, component add/get/remove through an entity handle, entity
destruction, and ticks. -/
inductive Op where
  | create
  | addC (eid k v : Nat)
  | getC (eid k : Nat)
  | removeC (eid k : Nat)
  | removeE (eid : Nat)
  | tick
deriving Repr, DecidableEq

/-- One public-interface step.  Component operations are guarded by
`k < MAX_COMPONENTS`: a larger kind id indexes the systems array and the bitset
out of bounds in the source (undefined behavior), so it is not part of the
valid interface.  `destroy` of an id without a record and the undefined
behavior case of the destroy loop fall back to leaving the state unchanged;
the latter is proved unreachable. -/
def step (kp : Nat → Nat) (m : Manager) : Op → Manager
  | .create => (entitiesCreate m).1
  | .addC eid k v => if k < MAX_COMPONENTS then (entityAdd kp m eid k v).1 else m
  | .getC eid k => if k < MAX_COMPONENTS then (entityGet kp m eid k).1 else m
  | .removeC eid k => if k < MAX_COMPONENTS then entityRemove kp m eid k else m
  | .removeE eid => (entitiesDestroy m eid).getD m
  | .tick => tickSystems m

/-- The state reached from a fresh manager by a sequence of public-interface
operations, for a given assignment `kp` of priorities to kinds. -/
def reach (kp : Nat → Nat) (ops : List Op) : Manager :=
  ops.foldl (step kp) initMgr

/-- "Kind `k`'s store holds an association (an entity-id slot) for `eid`". -/
def storeHoldsB (m : Manager) (k eid : Nat) : Bool :=
  match m.systems k with
  | some s => decide (eid ∈ s.ids)
  | none => false

/-- Length of kind `k`'s store (0 when no store exists yet). -/
def storeLen (m : Manager) (k : Nat) : Nat :=
  match m.systems k with
  | some s => s.components.length
  | none => 0

/-- Registering a store under a component id, with the bound of the
`ISystem* systems[MAX_COMPONENTS]` array made explicit: the source's
`Systems::Add` performs `systems[cid] = sys` with no bounds check, so for
`cid ≥ MAX_COMPONENTS` the write is out of bounds.  `none` here marks that
out-of-bounds access (undefined behavior in the source); it is NOT a detected
or surfaced error — the source contains no check, assertion, or any other
failure path for this condition. -/
def systemsAddChecked (m : Manager) (cid : Nat) (sys : SystemS) :
    Option Manager :=
  if cid < MAX_COMPONENTS then some (systemsAdd m cid sys) else none

/-- Registration of a list of (component id, store) pairs in order, on a fresh
manager: the setup of the priority-ordering scenarios. -/
def regFold (rs : List (Nat × SystemS)) : Manager :=
  rs.foldl (fun m p => systemsAdd m p.1 p.2) initMgr

/-- A bare store with a given priority (used in concrete scenarios). -/
def mkStore (p : Nat) : SystemS :=
  { components := [], ids := [], it := 0, priority := p, removeLog := [] }

/-- The per-element update hook of the mid-update self-removal scenario: the
update logic of every entity in `R` removes that entity's own component from
the store being iterated; all other entities' update logic does nothing. -/
def hookRemove (R : List Nat) : Nat → Nat → SystemS → SystemS :=
  fun eid _ s => if eid ∈ R then removeComponent s eid else s

/-- Invariant of every manager state reachable through the public interface:
entity records are keyed by their own id, bitsets have the fixed size, a set
membership bit means the kind's store exists and holds the entity (and the
kind id is in range), a store slot means the owning entity exists and has the
bit set, stores keep their parallel sequences aligned and duplicate-free,
entity ids are allocated from the counter, and no store lives outside the
systems array bounds. -/
structure MgrInv (m : Manager) : Prop where
  idEq : ∀ eid e, m.entities eid = some e → e.id = eid
  bitsLen : ∀ eid e, m.entities eid = some e → e.bits.length = MAX_COMPONENTS
  bitStore : ∀ eid e k, m.entities eid = some e → e.bits.getD k false = true →
    k < MAX_COMPONENTS ∧ ∃ s, m.systems k = some s ∧ eid ∈ s.ids
  storeBit : ∀ k s eid, m.systems k = some s → eid ∈ s.ids →
    ∃ e, m.entities eid = some e ∧ e.bits.getD k false = true
  storeWf : ∀ k s, m.systems k = some s →
    s.ids.Nodup ∧ s.components.length = s.ids.length
  idBound : ∀ eid e, m.entities eid = some e → 1 ≤ eid ∧ eid ≤ m.entity_ids
  storeMax : ∀ k, MAX_COMPONENTS ≤ k → m.systems k = none

/-- Projection of a store to the data the invariant cares about. -/
def sysShape (o : Option SystemS) : Option (List Nat × List Nat) :=
  o.map fun s => (s.components, s.ids)

/-- A fixed priority assignment for concrete witness states (every kind at the
default priority `UINT8_MAX`). -/
def kp0 : Nat → Nat := fun _ => 255

/-- Invariant of a manager built by store registrations: the prioritised
vector lists exactly the registered stores, without duplicates, in descending
priority order. -/
structure RegInv (m : Manager) : Prop where
  reg : ∀ c ∈ m.prioritised, (m.systems c).isSome
  complete : ∀ c, (m.systems c).isSome → c ∈ m.prioritised
  nodup : m.prioritised.Nodup
  sorted : m.prioritised.Pairwise (fun a b => prioOf m b ≤ prioOf m a)

/-! ### Basic lemmas about the scan/erase/index primitives -/

theorem scanIdx_eq_none_iff (p : Nat → Bool) (l : List Nat) :
    scanIdx p l = none ↔ ∀ x ∈ l, p x = false := by
  induction l with
  | nil => simp [scanIdx]
  | cons a l ih =>
    cases ha : p a with
    | true =>
      constructor
      · intro hc
        simp [scanIdx, ha] at hc
      · intro hall
        have h := hall a (List.mem_cons_self a l)
        rw [ha] at h
        exact absurd h (by simp)
    | false =>
      have hmap : scanIdx p (a :: l) = (scanIdx p l).map (· + 1) := by
        simp [scanIdx, ha]
      rw [hmap]
      constructor
      · intro hc
        rw [List.forall_mem_cons]
        have hnone : scanIdx p l = none := by
          cases hs : scanIdx p l
          · rfl
          · rw [hs] at hc
            simp at hc
        exact ⟨ha, ih.mp hnone⟩
      · intro hall
        rw [List.forall_mem_cons] at hall
        rw [ih.mpr hall.2]
        rfl

theorem scanIdx_prefix (p : Nat → Bool) (l₁ l₂ : List Nat) (r : Nat)
    (h1 : ∀ x ∈ l₁, p x = false) (hr : p r = true) :
    scanIdx p (l₁ ++ r :: l₂) = some l₁.length := by
  induction l₁ with
  | nil => simp [scanIdx, hr]
  | cons a l ih =>
    have ha : p a = false := h1 a (by simp)
    have := ih (fun x hx => h1 x (by simp [hx]))
    simp [scanIdx, ha, this]

theorem scanIdx_eq_some_decomp (p : Nat → Bool) (l : List Nat) (i : Nat)
    (h : scanIdx p l = some i) :
    ∃ l₁ x l₂, l = l₁ ++ x :: l₂ ∧ l₁.length = i ∧ p x = true ∧
      ∀ y ∈ l₁, p y = false := by
  induction l generalizing i with
  | nil => simp [scanIdx] at h
  | cons a l ih =>
    cases ha : p a with
    | true =>
      have h0 : scanIdx p (a :: l) = some 0 := by simp [scanIdx, ha]
      rw [h0] at h
      obtain rfl : (0 : Nat) = i := Option.some.inj h
      exact ⟨[], a, l, by simp, rfl, ha, by simp⟩
    | false =>
      have hmap : scanIdx p (a :: l) = (scanIdx p l).map (· + 1) := by
        simp [scanIdx, ha]
      rw [hmap] at h
      cases hs : scanIdx p l with
      | none =>
        rw [hs] at h
        simp at h
      | some j =>
        rw [hs] at h
        simp only [Option.map_some'] at h
        obtain rfl : j + 1 = i := Option.some.inj h
        obtain ⟨l₁, x, l₂, rfl, hlen, hx, hall⟩ := ih j hs
        refine ⟨a :: l₁, x, l₂, by simp, by simp [hlen], hx, ?_⟩
        intro y hy
        rcases List.mem_cons.mp hy with rfl | hy
        · exact ha
        · exact hall y hy

theorem eraseAt_append_len (l₁ l₂ : List Nat) (x : Nat) :
    eraseAt (l₁ ++ x :: l₂) l₁.length = l₁ ++ l₂ := by
  induction l₁ with
  | nil => simp [eraseAt]
  | cons a l ih => simp [eraseAt, ih]

theorem eraseAt_length (l : List Nat) (i : Nat) (h : i < l.length) :
    (eraseAt l i).length + 1 = l.length := by
  induction l generalizing i with
  | nil => simp at h
  | cons a l ih =>
    cases i with
    | zero => simp [eraseAt]
    | succ n => simp [eraseAt, ih n (by simpa using h)]

theorem getD_append_add (l₁ l₂ : List Nat) (t d : Nat) :
    (l₁ ++ l₂).getD (l₁.length + t) d = l₂.getD t d := by
  induction l₁ with
  | nil => simp
  | cons a l ih => simpa [Nat.succ_add] using ih

theorem getD_append_len (l₁ l₂ : List Nat) (x d : Nat) :
    (l₁ ++ x :: l₂).getD l₁.length d = x := by
  simpa using getD_append_add l₁ (x :: l₂) 0 d

theorem nodup_mid (l₁ l₂ : List Nat) (x : Nat) (h : (l₁ ++ x :: l₂).Nodup) :
    x ∉ l₁ ∧ x ∉ l₂ ∧ (l₁ ++ l₂).Nodup := by
  induction l₁ with
  | nil =>
    simp only [List.nil_append, List.nodup_cons] at h
    exact ⟨by simp, h.1, h.2⟩
  | cons a l ih =>
    simp only [List.cons_append, List.nodup_cons] at h
    obtain ⟨hx, hxl, hn⟩ := ih h.2
    refine ⟨?_, hxl, ?_⟩
    · intro hmem
      rcases List.mem_cons.mp hmem with rfl | hmem
      · exact h.1 (by simp)
      · exact hx hmem
    · simp only [List.cons_append, List.nodup_cons]
      refine ⟨fun hmem => ?_, hn⟩
      rcases List.mem_append.mp hmem with h' | h'
      · exact h.1 (List.mem_append.mpr (Or.inl h'))
      · exact h.1 (by simp [h'])

theorem mod_decrement_cycle (k : Nat) (hk : k < SIZE_MOD) :
    ((k + (SIZE_MOD - 1)) % SIZE_MOD + 1) % SIZE_MOD = k := by
  have h2 : k + (SIZE_MOD - 1) + 1 = k + SIZE_MOD := by
    have h1 : (1 : Nat) ≤ SIZE_MOD := by norm_num [SIZE_MOD]
    omega
  rw [Nat.mod_add_mod, h2, Nat.add_mod_right, Nat.mod_eq_of_lt hk]

/-! ### The default update pass under mid-pass self-removal -/

/-- Invariant step for the default `Manage` loop when the per-element update
logic removes the visited entity's own component for entities in `R`: starting
with cursor at the boundary between the already-processed survivors `kept` and
the unprocessed suffix `rest`, the pass visits exactly `rest` (in order) and
ends with the store holding `kept` followed by the survivors of `rest`. -/
theorem managePassAux_selfRemove (R : List Nat) :
    ∀ (rest : List Nat) (fuel : Nat) (s : SystemS) (kept tr : List Nat),
      s.ids = kept ++ rest →
      s.components.length = s.ids.length →
      s.ids.Nodup →
      s.it = kept.length →
      s.ids.length < SIZE_MOD →
      rest.length < fuel →
      (managePassAux (hookRemove R) fuel s tr).2 = tr ++ rest ∧
      (managePassAux (hookRemove R) fuel s tr).1.ids
        = kept ++ rest.filter (fun x => decide (x ∉ R)) := by
  intro rest
  induction rest with
  | nil =>
    intro fuel s kept tr hids hlen hnd hit hsz hfuel
    cases fuel with
    | zero => omega
    | succ f =>
      have hstop : ¬ s.it < s.components.length := by
        rw [hlen, hids, hit]
        simp
      simp [managePassAux, hstop, hids]
  | cons r rest ih =>
    intro fuel s kept tr hids hlen hnd hit hsz hfuel
    cases fuel with
    | zero => omega
    | succ f =>
      simp only [List.length_cons] at hfuel
      have hlensum : s.ids.length = kept.length + rest.length + 1 := by
        rw [hids, List.length_append, List.length_cons]
        omega
      have hklen : kept.length < s.ids.length := by omega
      have hcond : s.it < s.components.length := by
        rw [hlen, hit]
        exact hklen
      have heid : s.ids.getD s.it 0 = r := by
        rw [hids, hit]
        exact getD_append_len kept rest r 0
      have hndk : (kept ++ r :: rest).Nodup := hids ▸ hnd
      have hnotk : r ∉ kept := (nodup_mid kept rest r hndk).1
      rw [managePassAux, if_pos hcond, heid]
      by_cases hr : r ∈ R
      · -- the visited entity's update removes its own component
        have hscan : scanIdx (· == r) s.ids = some kept.length := by
          rw [hids]
          refine scanIdx_prefix _ kept rest r ?_ (by simp)
          intro x hx
          have hxr : x ≠ r := fun hxe => hnotk (hxe ▸ hx)
          simp [hxr]
        have htake : s.ids.take s.components.length = s.ids := by
          rw [hlen]
          exact List.take_length s.ids
        have hrm : removeComponent s r =
            { components := eraseAt s.components kept.length,
              ids := kept ++ rest,
              it := (s.it + (SIZE_MOD - 1)) % SIZE_MOD,
              priority := s.priority,
              removeLog := s.removeLog ++ [(r, s.components.getD kept.length 0)] } := by
          rw [removeComponent, htake, hscan]
          have : kept.length ≤ s.it := by omega
          simp [this, hids, eraseAt_append_len]
        have hkub : kept.length < SIZE_MOD := by omega
        have hcyc : ((s.it + (SIZE_MOD - 1)) % SIZE_MOD + 1) % SIZE_MOD = kept.length := by
          rw [hit]
          exact mod_decrement_cycle kept.length hkub
        have hlen' : (eraseAt s.components kept.length).length = (kept ++ rest).length := by
          have h1 := eraseAt_length s.components kept.length (by omega)
          rw [List.length_append]
          omega
        have hstep := ih f
          { components := eraseAt s.components kept.length,
            ids := kept ++ rest,
            it := kept.length,
            priority := s.priority,
            removeLog := s.removeLog ++ [(r, s.components.getD kept.length 0)] }
          kept (tr ++ [r]) rfl (by simpa using hlen')
          (nodup_mid kept rest r hndk).2.2 rfl
          (by rw [List.length_append]; omega)
          (by omega)
        simp only [hookRemove, if_pos hr]
        have hstate : ({ removeComponent s r with
            it := ((removeComponent s r).it + 1) % SIZE_MOD } : SystemS) =
            { components := eraseAt s.components kept.length,
              ids := kept ++ rest,
              it := kept.length,
              priority := s.priority,
              removeLog := s.removeLog ++ [(r, s.components.getD kept.length 0)] } := by
          simp only [hrm, hcyc]
        rw [hstate]
        refine ⟨?_, ?_⟩
        · rw [hstep.1]
          simp
        · rw [hstep.2]
          simp [List.filter_cons, hr]
      · -- the visited entity's update does nothing
        have hit1 : (s.it + 1) % SIZE_MOD = kept.length + 1 := by
          rw [hit]
          exact Nat.mod_eq_of_lt (by omega)
        have hstep := ih f { s with it := (s.it + 1) % SIZE_MOD }
          (kept ++ [r]) (tr ++ [r])
          (by simp [hids])
          (by simp [hlen])
          (by simpa using hnd)
          (by simp [hit1])
          (by simpa using hsz)
          (by omega)
        simp only [hookRemove, if_neg hr]
        refine ⟨?_, ?_⟩
        · rw [hstep.1]
          simp
        · rw [hstep.2]
          simp [List.filter_cons, hr]

/-- C1: running the default update pass over a store holding components
`[A(eid=1), B(eid=2), C(eid=3)]` whose update logic for B removes B's own
component leaves the parallel sequences holding exactly `[A, C]` and visits C
exactly once (the visit trace is `[1, 2, 3]`, with eid 3 appearing once);
in general, a removal whose erased index is at or before the in-progress
pass's cursor decrements the cursor by one (mod 2^64, matching `--it` on a
`size_t`), so the next cursor advance lands exactly on the element that slid
into the erased slot, and a whole pass whose per-element logic removes the
visited entity's own component (for entities in an arbitrary set `R`) visits
every original element exactly once, in order, and leaves exactly the
non-removed elements in the store. -/
theorem C1_mid_update_self_removal_safety :
    (managePass (hookRemove [2]) 10
        ⟨[10, 20, 30], [1, 2, 3], 0, 255, []⟩ =
      (⟨[10, 30], [1, 3], 2, 255, [(2, 20)]⟩, [1, 2, 3])) ∧
    ((managePass (hookRemove [2]) 10
        ⟨[10, 20, 30], [1, 2, 3], 0, 255, []⟩).2.count 3 = 1) ∧
    (∀ (s : SystemS) (eid i : Nat),
      scanIdx (· == eid) (s.ids.take s.components.length) = some i →
      i ≤ s.it → s.it < SIZE_MOD →
      ((removeComponent s eid).it + 1) % SIZE_MOD = s.it ∧
      (removeComponent s eid).ids.getD s.it 0 = s.ids.getD (s.it + 1) 0) ∧
    (∀ (R : List Nat) (s : SystemS),
      s.components.length = s.ids.length → s.ids.Nodup →
      s.ids.length < SIZE_MOD →
      (managePass (hookRemove R) (s.ids.length + 1) s).2 = s.ids ∧
      (managePass (hookRemove R) (s.ids.length + 1) s).1.ids
        = s.ids.filter (fun x => decide (x ∉ R))) := by
  refine ⟨by decide, by decide, ?_, ?_⟩
  · intro s eid i hscan hle hlt
    obtain ⟨l₁, x, l₂, hdec, hlen₁, _, _⟩ :=
      scanIdx_eq_some_decomp _ _ _ hscan
    have hidseq : s.ids = l₁ ++ x :: (l₂ ++ s.ids.drop s.components.length) := by
      conv_lhs => rw [← List.take_append_drop s.components.length s.ids]
      rw [hdec, List.append_assoc, List.cons_append]
    constructor
    · have hitfield : (removeComponent s eid).it =
          (s.it + (SIZE_MOD - 1)) % SIZE_MOD := by
        rw [removeComponent, hscan]
        simp [hle]
      rw [hitfield]
      exact mod_decrement_cycle s.it hlt
    · have hidsfield : (removeComponent s eid).ids = eraseAt s.ids i := by
        rw [removeComponent, hscan]
      rw [hidsfield, hidseq, ← hlen₁, eraseAt_append_len]
      obtain ⟨t, ht⟩ : ∃ t, s.it = l₁.length + t := ⟨s.it - l₁.length, by omega⟩
      rw [ht, getD_append_add]
      have harith : l₁.length + t + 1 = l₁.length + (t + 1) := by omega
      rw [harith, getD_append_add, List.getD_cons_succ]
  · intro R s hlen hnd hsz
    have h := managePassAux_selfRemove R s.ids (s.ids.length + 1)
      { s with it := 0 } [] [] rfl hlen hnd rfl hsz (by omega)
    exact ⟨by simpa using h.1, by simpa using h.2⟩

/-- Closed witness for C1: the cursor rule and the general pass theorem
instantiated at the scenario's own store. -/
theorem C1_witness :
    ((removeComponent ⟨[10, 20, 30], [1, 2, 3], 1, 255, []⟩ 2).it + 1) % SIZE_MOD = 1 ∧
    (managePass (hookRemove [2]) 4 ⟨[10, 20, 30], [1, 2, 3], 0, 255, []⟩).2 = [1, 2, 3] :=
  ⟨(C1_mid_update_self_removal_safety.2.2.1 ⟨[10, 20, 30], [1, 2, 3], 1, 255, []⟩ 2 1
      (by decide) (by decide) (by decide)).1,
   (C1_mid_update_self_removal_safety.2.2.2 [2] ⟨[10, 20, 30], [1, 2, 3], 0, 255, []⟩
      (by decide) (by decide) (by decide)).1⟩

/-! ### The reachable-state invariant -/

theorem inv_init : MgrInv initMgr := by
  constructor <;> intros <;> simp_all [initMgr]

theorem getComponentIdx_eq_none_iff (s : SystemS) (eid : Nat) :
    getComponentIdx s eid = none ↔ eid ∉ s.ids := by
  rw [getComponentIdx, scanIdx_eq_none_iff]
  constructor
  · intro hall hmem
    have := hall eid hmem
    simp at this
  · intro hnm x hx
    have hxe : x ≠ eid := fun he => hnm (he ▸ hx)
    simp [hxe]

theorem scanIdx_isSome_of_mem (eid : Nat) (l : List Nat) (h : eid ∈ l) :
    ∃ i, scanIdx (· == eid) l = some i := by
  cases hs : scanIdx (· == eid) l with
  | none =>
    rw [scanIdx_eq_none_iff] at hs
    have := hs eid h
    simp at this
  | some i => exact ⟨i, rfl⟩

theorem nodup_append_singleton (l : List Nat) (x : Nat) (hnd : l.Nodup)
    (hx : x ∉ l) : (l ++ [x]).Nodup := by
  induction l with
  | nil => simp
  | cons a l ih =>
    rw [List.nodup_cons] at hnd
    rw [List.cons_append, List.nodup_cons]
    refine ⟨?_, ih hnd.2 (fun h => hx (List.mem_cons_of_mem a h))⟩
    intro hmem
    rcases List.mem_append.mp hmem with h | h
    · exact hnd.1 h
    · rw [List.mem_singleton] at h
      exact hx (h ▸ List.mem_cons_self a l)

/-- `RemoveComponent` on an entity id not present in the store (with aligned
sequences) is a complete no-op. -/
theorem removeComponent_not_mem (s : SystemS) (eid : Nat)
    (h : eid ∉ s.ids) : removeComponent s eid = s := by
  have hscan : scanIdx (· == eid) (s.ids.take s.components.length) = none := by
    rw [scanIdx_eq_none_iff]
    intro x hx
    have hxi : x ∈ s.ids := List.mem_of_mem_take hx
    have hxe : x ≠ eid := fun he => h (he ▸ hxi)
    simp [hxe]
  rw [removeComponent, hscan]

/-- `RemoveComponent` on a present entity id (with aligned, duplicate-free
sequences): the id's slot is gone, every other id is untouched, the sequences
stay aligned and duplicate-free, and the `OnRemove` hook ran exactly once for
the removed association. -/
theorem removeComponent_mem (s : SystemS) (eid : Nat)
    (hnd : s.ids.Nodup) (hlen : s.components.length = s.ids.length)
    (hmem : eid ∈ s.ids) :
    eid ∉ (removeComponent s eid).ids ∧
    (∀ x, x ≠ eid → (x ∈ (removeComponent s eid).ids ↔ x ∈ s.ids)) ∧
    (removeComponent s eid).ids.Nodup ∧
    (removeComponent s eid).components.length = (removeComponent s eid).ids.length ∧
    (∃ v, (removeComponent s eid).removeLog = s.removeLog ++ [(eid, v)]) ∧
    (removeComponent s eid).ids.length + 1 = s.ids.length := by
  have htake : s.ids.take s.components.length = s.ids := by
    rw [hlen]
    exact List.take_length s.ids
  obtain ⟨i, hscan0⟩ := scanIdx_isSome_of_mem eid s.ids hmem
  have hscan : scanIdx (· == eid) (s.ids.take s.components.length) = some i := by
    rw [htake, hscan0]
  obtain ⟨l₁, x, l₂, hdec, hlen₁, hx, hall⟩ :=
    scanIdx_eq_some_decomp _ _ _ hscan0
  have hxeq : eid = x := by
    have := hx
    simp at this
    exact this.symm
  subst hxeq
  have hmid := nodup_mid l₁ l₂ eid (hdec ▸ hnd)
  have hrw : removeComponent s eid =
      { s with
        it := if i ≤ s.it then (s.it + (SIZE_MOD - 1)) % SIZE_MOD else s.it,
        removeLog := s.removeLog ++ [(eid, s.components.getD i 0)],
        components := eraseAt s.components i,
        ids := eraseAt s.ids i } := by
    rw [removeComponent, hscan]
  have hids' : (removeComponent s eid).ids = l₁ ++ l₂ := by
    rw [hrw]
    show eraseAt s.ids i = l₁ ++ l₂
    rw [hdec, ← hlen₁, eraseAt_append_len]
  have hilt : i < s.ids.length := by
    rw [hdec, List.length_append, List.length_cons]
    omega
  have hlsum : s.ids.length = l₁.length + l₂.length + 1 := by
    rw [hdec, List.length_append, List.length_cons]
    omega
  have hcl := eraseAt_length s.components i (by omega)
  have hnotl₁ : eid ∉ l₁ := fun hmem1 => by
    have := hall eid hmem1
    simp at this
  refine ⟨?_, ?_, hids' ▸ hmid.2.2, ?_, ⟨s.components.getD i 0, by rw [hrw]⟩, ?_⟩
  · rw [hids']
    intro hmem2
    rcases List.mem_append.mp hmem2 with h | h
    · exact hnotl₁ h
    · exact hmid.2.1 h
  · intro y hy
    rw [hids', hdec]
    simp only [List.mem_append, List.mem_cons]
    constructor
    · rintro (h | h)
      · exact Or.inl h
      · exact Or.inr (Or.inr h)
    · rintro (h | h | h)
      · exact Or.inl h
      · exact absurd h hy
      · exact Or.inr h
  · rw [hids']
    have : (removeComponent s eid).components = eraseAt s.components i := by
      rw [hrw]
    rw [this, List.length_append]
    omega
  · rw [hids', List.length_append]
    omega

/-! ### Manager-level helper lemmas -/

theorem getD_set_self (l : List Bool) (k : Nat) (b d : Bool) (h : k < l.length) :
    (l.set k b).getD k d = b := by
  induction l generalizing k with
  | nil => simp at h
  | cons a l ih =>
    cases k with
    | zero => simp
    | succ k => simpa using ih k (by simpa using h)

theorem getD_set_ne (l : List Bool) (j k : Nat) (b d : Bool) (hne : j ≠ k) :
    (l.set k b).getD j d = l.getD j d := by
  induction l generalizing j k with
  | nil => simp
  | cons a l ih =>
    cases k with
    | zero =>
      cases j with
      | zero => exact absurd rfl hne
      | succ j => simp
    | succ k =>
      cases j with
      | zero => simp
      | succ j => simpa using ih j k (fun h => hne (by rw [h]))

theorem mem_insertPrior_self (gp : Nat → Nat) (p cid : Nat) (l : List Nat) :
    cid ∈ insertPrior gp p cid l := by
  induction l with
  | nil => simp [insertPrior]
  | cons a l ih =>
    rw [insertPrior]
    split
    · simp
    · simpa using Or.inr ih

theorem mem_insertPrior_of_mem (gp : Nat → Nat) (p cid x : Nat) (l : List Nat)
    (h : x ∈ l) : x ∈ insertPrior gp p cid l := by
  induction l with
  | nil => simp at h
  | cons a l ih =>
    rw [insertPrior]
    split
    · simpa using Or.inr h
    · rcases List.mem_cons.mp h with rfl | h
      · simp
      · simpa using Or.inr (ih h)

theorem systemsAdd_entities (m : Manager) (cid : Nat) (sys : SystemS) :
    (systemsAdd m cid sys).entities = m.entities := by
  rw [systemsAdd]
  split <;> rfl

theorem systemsAdd_entity_ids (m : Manager) (cid : Nat) (sys : SystemS) :
    (systemsAdd m cid sys).entity_ids = m.entity_ids := by
  rw [systemsAdd]
  split <;> rfl

theorem systemsAdd_some_eq (m : Manager) (cid : Nat) (sys : SystemS)
    (h : (m.systems cid).isSome) : systemsAdd m cid sys = m := by
  rw [systemsAdd, if_pos h]

theorem systemsAdd_none_systems (m : Manager) (cid : Nat) (sys : SystemS)
    (h : m.systems cid = none) (c : Nat) :
    (systemsAdd m cid sys).systems c = if c = cid then some sys else m.systems c := by
  rw [systemsAdd, if_neg (by simp [h])]
  rfl

theorem systemsAdd_systems_ne (m : Manager) (cid c : Nat) (sys : SystemS)
    (hne : c ≠ cid) : (systemsAdd m cid sys).systems c = m.systems c := by
  rw [systemsAdd]
  split
  · rfl
  · simp [updSys, hne]

theorem systemsAdd_prioritised_mem (m : Manager) (cid c : Nat) (sys : SystemS)
    (h : c ∈ m.prioritised) : c ∈ (systemsAdd m cid sys).prioritised := by
  rw [systemsAdd]
  split
  · exact h
  · exact mem_insertPrior_of_mem _ _ _ _ _ h

theorem getSystemS_entities (kp : Nat → Nat) (m : Manager) (k : Nat) :
    (getSystemS kp m k).1.entities = m.entities := by
  cases h : m.systems k with
  | some s => simp [getSystemS, h]
  | none => simp [getSystemS, h, systemsAdd_entities]

theorem getSystemS_entity_ids (kp : Nat → Nat) (m : Manager) (k : Nat) :
    (getSystemS kp m k).1.entity_ids = m.entity_ids := by
  cases h : m.systems k with
  | some s => simp [getSystemS, h]
  | none => simp [getSystemS, h, systemsAdd_entity_ids]

theorem getSystemS_systems_self (kp : Nat → Nat) (m : Manager) (k : Nat) :
    (getSystemS kp m k).1.systems k = some (getSystemS kp m k).2 := by
  cases h : m.systems k with
  | some s => simp [getSystemS, h]
  | none =>
    simp only [getSystemS, h]
    rw [systemsAdd_none_systems m k _ h k, if_pos rfl]

theorem getSystemS_systems_ne (kp : Nat → Nat) (m : Manager) (k c : Nat)
    (hne : c ≠ k) : (getSystemS kp m k).1.systems c = m.systems c := by
  cases h : m.systems k with
  | some s => simp [getSystemS, h]
  | none =>
    simp only [getSystemS, h]
    exact systemsAdd_systems_ne m k c _ hne

theorem getSystemS_prioritised_mem (kp : Nat → Nat) (m : Manager) (k c : Nat)
    (h : c ∈ m.prioritised) : c ∈ (getSystemS kp m k).1.prioritised := by
  cases hs : m.systems k with
  | some s => simpa [getSystemS, hs] using h
  | none =>
    simp only [getSystemS, hs]
    exact systemsAdd_prioritised_mem _ _ _ _ h

theorem getSystemS_wf (kp : Nat → Nat) (m : Manager) (k : Nat)
    (hInv : MgrInv m) :
    (getSystemS kp m k).2.ids.Nodup ∧
    (getSystemS kp m k).2.components.length = (getSystemS kp m k).2.ids.length := by
  cases h : m.systems k with
  | some s =>
    simp only [getSystemS, h]
    exact hInv.storeWf k s h
  | none => simp [getSystemS, h, defaultSystem]

theorem getSystemS_storeBit (kp : Nat → Nat) (m : Manager) (k eid : Nat)
    (hInv : MgrInv m) (hmem : eid ∈ (getSystemS kp m k).2.ids) :
    ∃ e, m.entities eid = some e ∧ e.bits.getD k false = true := by
  cases h : m.systems k with
  | some s =>
    rw [getSystemS, h] at hmem
    exact hInv.storeBit k s eid h hmem
  | none =>
    rw [getSystemS, h] at hmem
    simp [defaultSystem] at hmem

theorem mgrInv_systemsAdd_empty (m : Manager) (cid : Nat) (sys : SystemS)
    (hInv : MgrInv m) (hk : cid < MAX_COMPONENTS)
    (hids : sys.ids = []) (hcomp : sys.components = []) :
    MgrInv (systemsAdd m cid sys) := by
  cases hreg : m.systems cid with
  | some s => rw [systemsAdd_some_eq m cid sys (by simp [hreg])]; exact hInv
  | none =>
    have hsys := systemsAdd_none_systems m cid sys hreg
    have hent := systemsAdd_entities m cid sys
    have heid := systemsAdd_entity_ids m cid sys
    constructor
    · intro eid e h
      exact hInv.idEq eid e (hent ▸ h)
    · intro eid e h
      exact hInv.bitsLen eid e (hent ▸ h)
    · intro eid e k h hb
      obtain ⟨hklt, s₀, hs₀, hmem⟩ := hInv.bitStore eid e k (hent ▸ h) hb
      refine ⟨hklt, s₀, ?_, hmem⟩
      rw [hsys k]
      have hne : k ≠ cid := fun he => by rw [he, hreg] at hs₀; cases hs₀
      rw [if_neg hne]
      exact hs₀
    · intro k s eid h hmem
      rw [hsys k] at h
      by_cases hkc : k = cid
      · rw [if_pos hkc] at h
        obtain rfl := Option.some.inj h
        rw [hids] at hmem
        simp at hmem
      · rw [if_neg hkc] at h
        obtain ⟨e, he, hb⟩ := hInv.storeBit k s eid h hmem
        exact ⟨e, hent ▸ he, hb⟩
    · intro k s h
      rw [hsys k] at h
      by_cases hkc : k = cid
      · rw [if_pos hkc] at h
        obtain rfl := Option.some.inj h
        simp [hids, hcomp]
      · rw [if_neg hkc] at h
        exact hInv.storeWf k s h
    · intro eid e h
      rw [heid]
      exact hInv.idBound eid e (hent ▸ h)
    · intro k hge
      rw [hsys k]
      have hne : k ≠ cid := fun he => by omega
      rw [if_neg hne]
      exact hInv.storeMax k hge

theorem mgrInv_getSystemS (kp : Nat → Nat) (m : Manager) (k : Nat)
    (hInv : MgrInv m) (hk : k < MAX_COMPONENTS) :
    MgrInv (getSystemS kp m k).1 := by
  cases h : m.systems k with
  | some s => simpa [getSystemS, h] using hInv
  | none =>
    simp only [getSystemS, h]
    exact mgrInv_systemsAdd_empty m k _ hInv hk rfl rfl

theorem mgrInv_entityAdd (kp : Nat → Nat) (m : Manager) (eid k v : Nat)
    (hInv : MgrInv m) (hk : k < MAX_COMPONENTS) :
    MgrInv (entityAdd kp m eid k v).1 := by
  cases hent : m.entities eid with
  | none => simpa [entityAdd, hent] using hInv
  | some e =>
    by_cases hbit : e.bits.getD k false = true
    · simp only [entityAdd, hent, if_pos hbit]
      exact mgrInv_getSystemS kp m k hInv hk
    · have hwf := getSystemS_wf kp m k hInv
      have hnotmem : eid ∉ (getSystemS kp m k).2.ids := by
        intro hmem
        obtain ⟨e', he', hb'⟩ := getSystemS_storeBit kp m k eid hInv hmem
        rw [hent] at he'
        obtain rfl := Option.some.inj he'
        exact hbit hb'
      have haddc : (addComponent (getSystemS kp m k).2 eid v).1 =
          { (getSystemS kp m k).2 with
            components := (getSystemS kp m k).2.components ++ [v],
            ids := (getSystemS kp m k).2.ids ++ [eid] } := by
        simp only [addComponent,
          (getComponentIdx_eq_none_iff (getSystemS kp m k).2 eid).mpr hnotmem]
      have hsys3 : ∀ c, (entityAdd kp m eid k v).1.systems c =
          if c = k then
            some { (getSystemS kp m k).2 with
                   components := (getSystemS kp m k).2.components ++ [v],
                   ids := (getSystemS kp m k).2.ids ++ [eid] }
          else m.systems c := by
        intro c
        simp only [entityAdd, hent, hbit, if_false, updEnt, updSys, haddc]
        by_cases hc : c = k
        · simp [hc]
        · simp [hc, getSystemS_systems_ne kp m k c hc]
      have hent3 : ∀ i, (entityAdd kp m eid k v).1.entities i =
          if i = eid then some { e with bits := e.bits.set k true }
          else m.entities i := by
        intro i
        simp only [entityAdd, hent, hbit, if_false, updEnt, updSys]
        by_cases hi : i = eid
        · simp [hi]
        · simp [hi, getSystemS_entities]
      have heids3 : (entityAdd kp m eid k v).1.entity_ids = m.entity_ids := by
        simp only [entityAdd, hent, hbit, if_false, updEnt, updSys]
        exact getSystemS_entity_ids kp m k
      have hblen : e.bits.length = MAX_COMPONENTS := hInv.bitsLen eid e hent
      constructor
      · intro eid' e' h
        rw [hent3 eid'] at h
        by_cases hi : eid' = eid
        · rw [if_pos hi] at h
          obtain rfl := Option.some.inj h
          rw [hi]
          exact hInv.idEq eid e hent
        · rw [if_neg hi] at h
          exact hInv.idEq eid' e' h
      · intro eid' e' h
        rw [hent3 eid'] at h
        by_cases hi : eid' = eid
        · rw [if_pos hi] at h
          obtain rfl := Option.some.inj h
          simpa using hblen
        · rw [if_neg hi] at h
          exact hInv.bitsLen eid' e' h
      · intro eid' e' k' h hb
        rw [hent3 eid'] at h
        rw [hsys3 k']
        by_cases hi : eid' = eid
        · rw [if_pos hi] at h
          obtain rfl := Option.some.inj h
          by_cases hkk : k' = k
          · subst hkk
            refine ⟨hk, { (getSystemS kp m k').2 with
                components := (getSystemS kp m k').2.components ++ [v],
                ids := (getSystemS kp m k').2.ids ++ [eid] }, by simp, by simp [hi]⟩
          · have hb' : e.bits.getD k' false = true := by
              rw [← getD_set_ne e.bits k' k true false hkk]
              exact hb
            obtain ⟨hlt, s₀, hs₀, hmem⟩ := hInv.bitStore eid e k' hent hb'
            rw [if_neg hkk, hi]
            exact ⟨hlt, s₀, hs₀, hmem⟩
        · rw [if_neg hi] at h
          obtain ⟨hlt, s₀, hs₀, hmem⟩ := hInv.bitStore eid' e' k' h hb
          by_cases hkk : k' = k
          · subst hkk
            rw [if_pos rfl]
            have : s₀ = (getSystemS kp m k').2 := by
              have h2 : m.systems k' = some s₀ := hs₀
              simp [getSystemS, h2]
            refine ⟨hlt, _, rfl, ?_⟩
            rw [← this]
            simp [hmem]
          · rw [if_neg hkk]
            exact ⟨hlt, s₀, hs₀, hmem⟩
      · intro k' s' eid' h hmem
        rw [hsys3 k'] at h
        by_cases hkk : k' = k
        · subst hkk
          rw [if_pos rfl] at h
          obtain rfl := Option.some.inj h
          simp only [List.mem_append, List.mem_singleton] at hmem
          rcases hmem with hmem | rfl
          · obtain ⟨e', he', hb'⟩ := getSystemS_storeBit kp m k' eid' hInv hmem
            have hne : eid' ≠ eid := fun he => by
              rw [he] at hmem
              exact hnotmem hmem
            refine ⟨e', ?_, hb'⟩
            rw [hent3 eid', if_neg hne]
            exact he'
          · refine ⟨{ e with bits := e.bits.set k' true }, ?_, ?_⟩
            · rw [hent3 eid', if_pos rfl]
            · simpa using getD_set_self e.bits k' true false (by omega)
        · rw [if_neg hkk] at h
          obtain ⟨e', he', hb'⟩ := hInv.storeBit k' s' eid' h hmem
          by_cases hi : eid' = eid
          · rw [hi, hent] at he'
            obtain rfl := Option.some.inj he'
            refine ⟨{ e with bits := e.bits.set k true }, ?_, ?_⟩
            · rw [hent3 eid', if_pos hi]
            · rw [getD_set_ne e.bits k' k true false hkk]
              exact hb'
          · refine ⟨e', ?_, hb'⟩
            rw [hent3 eid', if_neg hi]
            exact he'
      · intro k' s' h
        rw [hsys3 k'] at h
        by_cases hkk : k' = k
        · subst hkk
          rw [if_pos rfl] at h
          obtain rfl := Option.some.inj h
          constructor
          · exact nodup_append_singleton _ _ hwf.1 hnotmem
          · simp only [List.length_append, List.length_singleton]
            omega
        · rw [if_neg hkk] at h
          exact hInv.storeWf k' s' h
      · intro eid' e' h
        rw [hent3 eid'] at h
        rw [heids3]
        by_cases hi : eid' = eid
        · rw [if_pos hi] at h
          rw [hi]
          exact hInv.idBound eid e hent
        · rw [if_neg hi] at h
          exact hInv.idBound eid' e' h
      · intro k' hge
        rw [hsys3 k']
        have hne : k' ≠ k := fun he => by omega
        rw [if_neg hne]
        exact hInv.storeMax k' hge

theorem mgrInv_entityGet (kp : Nat → Nat) (m : Manager) (eid k : Nat)
    (hInv : MgrInv m) (hk : k < MAX_COMPONENTS) :
    MgrInv (entityGet kp m eid k).1 := by
  cases hent : m.entities eid with
  | none => simpa [entityGet, hent] using hInv
  | some e =>
    by_cases hbit : e.bits.getD k false = false
    · simp only [entityGet, hent, if_pos hbit]
      exact hInv
    · simp only [entityGet, hent, if_neg hbit]
      exact mgrInv_getSystemS kp m k hInv hk

theorem getD_replicate_false (n k : Nat) :
    (List.replicate n false).getD k false = false := by
  induction n generalizing k with
  | zero => simp
  | succ n ih =>
    cases k with
    | zero => simp [List.replicate_succ]
    | succ k =>
      rw [List.replicate_succ, List.getD_cons_succ]
      exact ih k

theorem mgrInv_create (m : Manager) (hInv : MgrInv m) :
    MgrInv (entitiesCreate m).1 := by
  have hent3 : ∀ i, (entitiesCreate m).1.entities i =
      if i = m.entity_ids + 1 then
        some { id := m.entity_ids + 1, bits := List.replicate MAX_COMPONENTS false }
      else m.entities i := by
    intro i
    simp [entitiesCreate]
  have heids3 : (entitiesCreate m).1.entity_ids = m.entity_ids + 1 := rfl
  have hsys3 : (entitiesCreate m).1.systems = m.systems := rfl
  constructor
  · intro eid e h
    rw [hent3 eid] at h
    by_cases hi : eid = m.entity_ids + 1
    · rw [if_pos hi] at h
      obtain rfl := Option.some.inj h
      exact hi.symm
    · rw [if_neg hi] at h
      exact hInv.idEq eid e h
  · intro eid e h
    rw [hent3 eid] at h
    by_cases hi : eid = m.entity_ids + 1
    · rw [if_pos hi] at h
      obtain rfl := Option.some.inj h
      simp
    · rw [if_neg hi] at h
      exact hInv.bitsLen eid e h
  · intro eid e k h hb
    rw [hent3 eid] at h
    rw [hsys3]
    by_cases hi : eid = m.entity_ids + 1
    · rw [if_pos hi] at h
      obtain rfl := Option.some.inj h
      have hb2 : (List.replicate MAX_COMPONENTS false).getD k false = true := hb
      rw [getD_replicate_false] at hb2
      cases hb2
    · rw [if_neg hi] at h
      exact hInv.bitStore eid e k h hb
  · intro k s eid h hmem
    rw [hsys3] at h
    obtain ⟨e, he, hb⟩ := hInv.storeBit k s eid h hmem
    have hlt := hInv.idBound eid e he
    have hne : eid ≠ m.entity_ids + 1 := by omega
    refine ⟨e, ?_, hb⟩
    rw [hent3 eid, if_neg hne]
    exact he
  · intro k s h
    rw [hsys3] at h
    exact hInv.storeWf k s h
  · intro eid e h
    rw [hent3 eid] at h
    rw [heids3]
    by_cases hi : eid = m.entity_ids + 1
    · omega
    · rw [if_neg hi] at h
      have := hInv.idBound eid e h
      omega
  · intro k hge
    rw [hsys3]
    exact hInv.storeMax k hge

theorem mgrInv_entityRemove (kp : Nat → Nat) (m : Manager) (eid k : Nat)
    (hInv : MgrInv m) (hk : k < MAX_COMPONENTS) :
    MgrInv (entityRemove kp m eid k) := by
  cases hent : m.entities eid with
  | none => simpa [entityRemove, hent] using hInv
  | some e =>
    have hwf := getSystemS_wf kp m k hInv
    have hsys3 : ∀ c, (entityRemove kp m eid k).systems c =
        if c = k then some (removeComponent (getSystemS kp m k).2 eid)
        else m.systems c := by
      intro c
      simp only [entityRemove, hent, updEnt, updSys]
      by_cases hc : c = k
      · simp [hc]
      · simp [hc, getSystemS_systems_ne kp m k c hc]
    have hent3 : ∀ i, (entityRemove kp m eid k).entities i =
        if i = eid then some { e with bits := e.bits.set k false }
        else m.entities i := by
      intro i
      simp only [entityRemove, hent, updEnt, updSys]
      by_cases hi : i = eid
      · simp [hi]
      · simp [hi, getSystemS_entities]
    have heids3 : (entityRemove kp m eid k).entity_ids = m.entity_ids := by
      simp only [entityRemove, hent, updEnt, updSys]
      exact getSystemS_entity_ids kp m k
    have hblen : e.bits.length = MAX_COMPONENTS := hInv.bitsLen eid e hent
    have hsk : ∀ s₀, m.systems k = some s₀ → (getSystemS kp m k).2 = s₀ := by
      intro s₀ h₀
      simp [getSystemS, h₀]
    -- membership in the removed store, both cases at once
    have hrc_not : eid ∉ (removeComponent (getSystemS kp m k).2 eid).ids := by
      by_cases hmem : eid ∈ (getSystemS kp m k).2.ids
      · exact (removeComponent_mem _ _ hwf.1 hwf.2 hmem).1
      · rw [removeComponent_not_mem _ _ hmem]
        exact hmem
    have hrc_other : ∀ x, x ≠ eid →
        (x ∈ (removeComponent (getSystemS kp m k).2 eid).ids ↔
         x ∈ (getSystemS kp m k).2.ids) := by
      intro x hx
      by_cases hmem : eid ∈ (getSystemS kp m k).2.ids
      · exact (removeComponent_mem _ _ hwf.1 hwf.2 hmem).2.1 x hx
      · rw [removeComponent_not_mem _ _ hmem]
    have hrc_wf : (removeComponent (getSystemS kp m k).2 eid).ids.Nodup ∧
        (removeComponent (getSystemS kp m k).2 eid).components.length =
        (removeComponent (getSystemS kp m k).2 eid).ids.length := by
      by_cases hmem : eid ∈ (getSystemS kp m k).2.ids
      · have h := removeComponent_mem _ _ hwf.1 hwf.2 hmem
        exact ⟨h.2.2.1, h.2.2.2.1⟩
      · rw [removeComponent_not_mem _ _ hmem]
        exact hwf
    constructor
    · intro eid' e' h
      rw [hent3 eid'] at h
      by_cases hi : eid' = eid
      · rw [if_pos hi] at h
        obtain rfl := Option.some.inj h
        rw [hi]
        exact hInv.idEq eid e hent
      · rw [if_neg hi] at h
        exact hInv.idEq eid' e' h
    · intro eid' e' h
      rw [hent3 eid'] at h
      by_cases hi : eid' = eid
      · rw [if_pos hi] at h
        obtain rfl := Option.some.inj h
        simpa using hblen
      · rw [if_neg hi] at h
        exact hInv.bitsLen eid' e' h
    · intro eid' e' k' h hb
      rw [hent3 eid'] at h
      rw [hsys3 k']
      by_cases hi : eid' = eid
      · rw [if_pos hi] at h
        obtain rfl := Option.some.inj h
        by_cases hkk : k' = k
        · subst hkk
          have hb2 : (e.bits.set k' false).getD k' false = true := hb
          rw [getD_set_self e.bits k' false false (by omega)] at hb2
          cases hb2
        · have hb' : e.bits.getD k' false = true := by
            rw [← getD_set_ne e.bits k' k false false hkk]
            exact hb
          obtain ⟨hlt, s₀, hs₀, hmem⟩ := hInv.bitStore eid e k' hent hb'
          rw [if_neg hkk, hi]
          exact ⟨hlt, s₀, hs₀, hmem⟩
      · rw [if_neg hi] at h
        obtain ⟨hlt, s₀, hs₀, hmem⟩ := hInv.bitStore eid' e' k' h hb
        by_cases hkk : k' = k
        · subst hkk
          refine ⟨hlt, removeComponent (getSystemS kp m k').2 eid, by simp, ?_⟩
          rw [hrc_other eid' hi, hsk s₀ hs₀]
          exact hmem
        · rw [if_neg hkk]
          exact ⟨hlt, s₀, hs₀, hmem⟩
    · intro k' s' eid' h hmem
      rw [hsys3 k'] at h
      by_cases hkk : k' = k
      · subst hkk
        rw [if_pos rfl] at h
        obtain rfl := Option.some.inj h
        have hne : eid' ≠ eid := by
          intro he
          rw [he] at hmem
          exact hrc_not hmem
        rw [hrc_other eid' hne] at hmem
        obtain ⟨e', he', hb'⟩ := getSystemS_storeBit kp m k' eid' hInv hmem
        refine ⟨e', ?_, hb'⟩
        rw [hent3 eid', if_neg hne]
        exact he'
      · rw [if_neg hkk] at h
        obtain ⟨e', he', hb'⟩ := hInv.storeBit k' s' eid' h hmem
        by_cases hi : eid' = eid
        · rw [hi, hent] at he'
          obtain rfl := Option.some.inj he'
          refine ⟨{ e with bits := e.bits.set k false }, ?_, ?_⟩
          · rw [hent3 eid', if_pos hi]
          · show (e.bits.set k false).getD k' false = true
            rw [getD_set_ne e.bits k' k false false hkk]
            exact hb'
        · refine ⟨e', ?_, hb'⟩
          rw [hent3 eid', if_neg hi]
          exact he'
    · intro k' s' h
      rw [hsys3 k'] at h
      by_cases hkk : k' = k
      · subst hkk
        rw [if_pos rfl] at h
        obtain rfl := Option.some.inj h
        exact hrc_wf
      · rw [if_neg hkk] at h
        exact hInv.storeWf k' s' h
    · intro eid' e' h
      rw [hent3 eid'] at h
      rw [heids3]
      by_cases hi : eid' = eid
      · rw [if_pos hi] at h
        rw [hi]
        exact hInv.idBound eid e hent
      · rw [if_neg hi] at h
        exact hInv.idBound eid' e' h
    · intro k' hge
      rw [hsys3 k']
      have hne : k' ≠ k := fun he => by omega
      rw [if_neg hne]
      exact hInv.storeMax k' hge

/-! ### Destruction cascade lemmas -/

theorem destroyLoop_isSome (e : EntityS) (sys : Nat → Option SystemS)
    (idxs : List Nat)
    (h : ∀ i ∈ idxs, e.bits.getD i false = true → (sys i).isSome) :
    (destroyLoop e sys idxs).isSome := by
  induction idxs generalizing sys with
  | nil => simp [destroyLoop]
  | cons i rest ih =>
    rw [destroyLoop]
    by_cases hb : e.bits.getD i false = true
    · rw [if_pos hb]
      cases hs : sys i with
      | none =>
        have := h i (by simp) hb
        rw [hs] at this
        cases this
      | some s =>
        refine ih _ ?_
        intro j hj hbj
        by_cases hji : j = i
        · simp [hji]
        · simp only [if_neg hji]
          exact h j (by simp [hj]) hbj
    · rw [if_neg hb]
      refine ih _ ?_
      intro j hj hbj
      exact h j (by simp [hj]) hbj

theorem destroyLoop_unchanged (e : EntityS) (sys : Nat → Option SystemS)
    (idxs : List Nat) (sys' : Nat → Option SystemS)
    (h : destroyLoop e sys idxs = some sys') (c : Nat)
    (hc : c ∉ idxs ∨ e.bits.getD c false ≠ true) : sys' c = sys c := by
  induction idxs generalizing sys with
  | nil =>
    rw [destroyLoop] at h
    obtain rfl := Option.some.inj h
    rfl
  | cons i rest ih =>
    rw [destroyLoop] at h
    have hc' : c ∉ rest ∨ e.bits.getD c false ≠ true := by
      rcases hc with hc | hc
      · exact Or.inl (fun hm => hc (List.mem_cons_of_mem i hm))
      · exact Or.inr hc
    by_cases hb : e.bits.getD i false = true
    · rw [if_pos hb] at h
      cases hs : sys i with
      | none =>
        rw [hs] at h
        cases h
      | some s =>
        rw [hs] at h
        have := ih _ h hc'
        rw [this]
        have hci : c ≠ i := by
          rcases hc with hc | hc
          · exact fun he => hc (he ▸ List.mem_cons_self i rest)
          · exact fun he => hc (he ▸ hb)
        simp [hci]
    · rw [if_neg hb] at h
      exact ih _ h hc'

theorem destroyLoop_removed (e : EntityS) (sys : Nat → Option SystemS)
    (idxs : List Nat) (sys' : Nat → Option SystemS) (hnd : idxs.Nodup)
    (h : destroyLoop e sys idxs = some sys') (c : Nat) (hc : c ∈ idxs)
    (hb : e.bits.getD c false = true) (s : SystemS) (hs : sys c = some s) :
    sys' c = some (removeComponent s e.id) := by
  induction idxs generalizing sys with
  | nil => simp at hc
  | cons i rest ih =>
    rw [destroyLoop] at h
    rw [List.nodup_cons] at hnd
    rcases List.mem_cons.mp hc with rfl | hcr
    · rw [if_pos hb, hs] at h
      have := destroyLoop_unchanged e _ rest sys' h c (Or.inl hnd.1)
      rw [this]
      simp
    · have hci : c ≠ i := fun he => hnd.1 (he ▸ hcr)
      by_cases hbi : e.bits.getD i false = true
      · rw [if_pos hbi] at h
        cases hsi : sys i with
        | none =>
          rw [hsi] at h
          cases h
        | some si =>
          rw [hsi] at h
          refine ih _ hnd.2 h hcr ?_
          simp only [if_neg hci]
          exact hs
      · rw [if_neg hbi] at h
        exact ih _ hnd.2 h hcr hs

theorem removeComponent_wf (s : SystemS) (eid : Nat) (hnd : s.ids.Nodup)
    (hlen : s.components.length = s.ids.length) :
    (removeComponent s eid).ids.Nodup ∧
    (removeComponent s eid).components.length = (removeComponent s eid).ids.length := by
  by_cases hmem : eid ∈ s.ids
  · have h := removeComponent_mem s eid hnd hlen hmem
    exact ⟨h.2.2.1, h.2.2.2.1⟩
  · rw [removeComponent_not_mem s eid hmem]
    exact ⟨hnd, hlen⟩

theorem bits_getD_ge (e : EntityS) (k : Nat) (hlen : e.bits.length = MAX_COMPONENTS)
    (hge : MAX_COMPONENTS ≤ k) : e.bits.getD k false = false := by
  have : e.bits.length ≤ k := by omega
  rw [List.getD_eq_default]
  omega

/-- Destruction of a live entity in an invariant state is well defined (the
unguarded store lookup never dereferences null) and the resulting state is
fully characterised. -/
theorem destroy_characterised (m : Manager) (eid : Nat) (hInv : MgrInv m)
    (e : EntityS) (hent : m.entities eid = some e) :
    ∃ m', entitiesDestroy m eid = some m' ∧
      (∀ c, m'.systems c =
        if e.bits.getD c false = true then
          (m.systems c).map (fun s => removeComponent s eid)
        else m.systems c) ∧
      (∀ i, m'.entities i = if i = eid then none else m.entities i) ∧
      m'.entity_ids = m.entity_ids ∧ m'.prioritised = m.prioritised := by
  have hid : e.id = eid := hInv.idEq eid e hent
  have hblen : e.bits.length = MAX_COMPONENTS := hInv.bitsLen eid e hent
  have hsome : (destroyLoop e m.systems (List.range MAX_COMPONENTS)).isSome := by
    refine destroyLoop_isSome e m.systems _ ?_
    intro i hi hb
    obtain ⟨_, s, hs, _⟩ := hInv.bitStore eid e i hent hb
    simp [hs]
  obtain ⟨sys', hsys'⟩ := Option.isSome_iff_exists.mp hsome
  refine ⟨{ m with
            systems := sys',
            entities := fun i => if i = e.id then none else m.entities i },
    ?_, ?_, ?_, rfl, rfl⟩
  · simp only [entitiesDestroy, hent, hsys', Option.map_some']
  · intro c
    by_cases hb : e.bits.getD c false = true
    · rw [if_pos hb]
      obtain ⟨hclt, s, hs, _⟩ := hInv.bitStore eid e c hent hb
      have := destroyLoop_removed e m.systems _ sys' (List.nodup_range _)
        hsys' c (List.mem_range.mpr hclt) hb s hs
      rw [hid] at this
      simp [this, hs]
    · rw [if_neg hb]
      exact destroyLoop_unchanged e m.systems _ sys' hsys' c (Or.inr hb)
  · intro i
    rw [hid]

theorem mgrInv_destroy (m : Manager) (eid : Nat) (hInv : MgrInv m) :
    MgrInv ((entitiesDestroy m eid).getD m) := by
  cases hent : m.entities eid with
  | none =>
    rw [entitiesDestroy, hent]
    exact hInv
  | some e =>
    obtain ⟨m', hm', hsys3, hent3, heids3, _⟩ :=
      destroy_characterised m eid hInv e hent
    rw [hm']
    show MgrInv m'
    have hblen := hInv.bitsLen eid e hent
    constructor
    · intro eid' e' h
      rw [hent3 eid'] at h
      by_cases hi : eid' = eid
      · rw [if_pos hi] at h
        cases h
      · rw [if_neg hi] at h
        exact hInv.idEq eid' e' h
    · intro eid' e' h
      rw [hent3 eid'] at h
      by_cases hi : eid' = eid
      · rw [if_pos hi] at h
        cases h
      · rw [if_neg hi] at h
        exact hInv.bitsLen eid' e' h
    · intro eid' e' k h hb
      rw [hent3 eid'] at h
      rw [hsys3 k]
      by_cases hi : eid' = eid
      · rw [if_pos hi] at h
        cases h
      · rw [if_neg hi] at h
        obtain ⟨hlt, s₀, hs₀, hmem⟩ := hInv.bitStore eid' e' k h hb
        by_cases hbe : e.bits.getD k false = true
        · rw [if_pos hbe]
          have hwf := hInv.storeWf k s₀ hs₀
          have hmemE : eid ∈ s₀.ids := by
            obtain ⟨_, s₁, hs₁, hmem₁⟩ := hInv.bitStore eid e k hent hbe
            rw [hs₀] at hs₁
            obtain rfl := Option.some.inj hs₁
            exact hmem₁
          have hmm := removeComponent_mem s₀ eid hwf.1 hwf.2 hmemE
          exact ⟨hlt, removeComponent s₀ eid, by simp [hs₀],
            (hmm.2.1 eid' hi).mpr hmem⟩
        · rw [if_neg hbe]
          exact ⟨hlt, s₀, hs₀, hmem⟩
    · intro k s' eid' h hmem
      rw [hsys3 k] at h
      by_cases hbe : e.bits.getD k false = true
      · rw [if_pos hbe] at h
        obtain ⟨_, s₀, hs₀, hmem₀⟩ := hInv.bitStore eid e k hent hbe
        rw [hs₀] at h
        simp only [Option.map_some'] at h
        obtain rfl := Option.some.inj h
        have hwf := hInv.storeWf k s₀ hs₀
        have hmm := removeComponent_mem s₀ eid hwf.1 hwf.2 hmem₀
        have hne : eid' ≠ eid := by
          intro he
          rw [he] at hmem
          exact hmm.1 hmem
        rw [hmm.2.1 eid' hne] at hmem
        obtain ⟨e', he', hb'⟩ := hInv.storeBit k s₀ eid' hs₀ hmem
        refine ⟨e', ?_, hb'⟩
        rw [hent3 eid', if_neg hne]
        exact he'
      · rw [if_neg hbe] at h
        obtain ⟨e', he', hb'⟩ := hInv.storeBit k s' eid' h hmem
        have hne : eid' ≠ eid := by
          intro he
          rw [he, hent] at he'
          obtain rfl := Option.some.inj he'
          exact hbe hb'
        refine ⟨e', ?_, hb'⟩
        rw [hent3 eid', if_neg hne]
        exact he'
    · intro k s' h
      rw [hsys3 k] at h
      by_cases hbe : e.bits.getD k false = true
      · rw [if_pos hbe] at h
        cases hs₀ : m.systems k with
        | none =>
          rw [hs₀] at h
          cases h
        | some s₀ =>
          rw [hs₀] at h
          simp only [Option.map_some'] at h
          obtain rfl := Option.some.inj h
          have hwf := hInv.storeWf k s₀ hs₀
          exact removeComponent_wf s₀ eid hwf.1 hwf.2
      · rw [if_neg hbe] at h
        exact hInv.storeWf k s' h
    · intro eid' e' h
      rw [hent3 eid'] at h
      rw [heids3]
      by_cases hi : eid' = eid
      · rw [if_pos hi] at h
        cases h
      · rw [if_neg hi] at h
        exact hInv.idBound eid' e' h
    · intro k hge
      rw [hsys3 k]
      rw [bits_getD_ge e k hblen hge]
      simp only [Bool.false_eq_true, if_false]
      exact hInv.storeMax k hge

/-! ### Tick lemmas -/

theorem managePassAux_noop (fuel : Nat) :
    ∀ (s : SystemS) (tr : List Nat),
      (managePassAux noopHook fuel s tr).1.components = s.components ∧
      (managePassAux noopHook fuel s tr).1.ids = s.ids ∧
      (managePassAux noopHook fuel s tr).1.priority = s.priority ∧
      (managePassAux noopHook fuel s tr).1.removeLog = s.removeLog := by
  induction fuel with
  | zero => intro s tr; exact ⟨rfl, rfl, rfl, rfl⟩
  | succ f ih =>
    intro s tr
    rw [managePassAux]
    by_cases hc : s.it < s.components.length
    · rw [if_pos hc]
      exact ih _ _
    · rw [if_neg hc]
      exact ⟨rfl, rfl, rfl, rfl⟩

theorem sysManage_shape (s : SystemS) :
    (sysManage s).components = s.components ∧ (sysManage s).ids = s.ids ∧
    (sysManage s).priority = s.priority ∧ (sysManage s).removeLog = s.removeLog := by
  rw [sysManage, managePass]
  exact managePassAux_noop _ _ _

theorem tickFold_shape (l : List Nat) :
    ∀ (sys : Nat → Option SystemS) (c : Nat),
      sysShape ((l.foldl (fun sys cid =>
        match sys cid with
        | some s => fun c => if c = cid then some (sysManage s) else sys c
        | none => sys) sys) c) = sysShape (sys c) := by
  induction l with
  | nil =>
    intro sys c
    rfl
  | cons cid rest ih =>
    intro sys c
    rw [List.foldl_cons, ih]
    cases hs : sys cid with
    | none => simp only [hs]
    | some s =>
      simp only [hs]
      by_cases hc : c = cid
      · rw [if_pos hc, hc, hs]
        have hsh := sysManage_shape s
        simp [sysShape, hsh.1, hsh.2.1]
      · rw [if_neg hc]

theorem tickSystems_shape (m : Manager) (c : Nat) :
    sysShape ((tickSystems m).systems c) = sysShape (m.systems c) :=
  tickFold_shape m.prioritised m.systems c

theorem mgrInv_tick (m : Manager) (hInv : MgrInv m) : MgrInv (tickSystems m) := by
  have hents : (tickSystems m).entities = m.entities := rfl
  have heids : (tickSystems m).entity_ids = m.entity_ids := rfl
  have hnone : ∀ c, m.systems c = none → (tickSystems m).systems c = none := by
    intro c h
    have hsh := tickSystems_shape m c
    rw [h] at hsh
    simp only [sysShape, Option.map_none'] at hsh
    exact Option.map_eq_none'.mp hsh
  have hsome : ∀ c s, m.systems c = some s → ∃ s',
      (tickSystems m).systems c = some s' ∧
      s'.components = s.components ∧ s'.ids = s.ids := by
    intro c s h
    have hsh := tickSystems_shape m c
    rw [h] at hsh
    cases ht : (tickSystems m).systems c with
    | none =>
      rw [ht] at hsh
      simp [sysShape] at hsh
    | some s' =>
      rw [ht] at hsh
      simp only [sysShape, Option.map_some'] at hsh
      obtain hp := Option.some.inj hsh
      exact ⟨s', rfl, congrArg Prod.fst hp, congrArg Prod.snd hp⟩
  have hsome2 : ∀ c s', (tickSystems m).systems c = some s' → ∃ s,
      m.systems c = some s ∧ s'.components = s.components ∧ s'.ids = s.ids := by
    intro c s' h
    have hsh := tickSystems_shape m c
    rw [h] at hsh
    cases ht : m.systems c with
    | none =>
      rw [ht] at hsh
      simp [sysShape] at hsh
    | some s =>
      rw [ht] at hsh
      simp only [sysShape, Option.map_some'] at hsh
      obtain hp := Option.some.inj hsh
      exact ⟨s, rfl, congrArg Prod.fst hp, congrArg Prod.snd hp⟩
  constructor
  · intro eid e h
    exact hInv.idEq eid e (hents ▸ h)
  · intro eid e h
    exact hInv.bitsLen eid e (hents ▸ h)
  · intro eid e k h hb
    obtain ⟨hlt, s, hs, hmem⟩ := hInv.bitStore eid e k (hents ▸ h) hb
    obtain ⟨s', hs', _, hids⟩ := hsome k s hs
    exact ⟨hlt, s', hs', hids ▸ hmem⟩
  · intro k s' eid h hmem
    obtain ⟨s, hs, _, hids⟩ := hsome2 k s' h
    obtain ⟨e, he, hb⟩ := hInv.storeBit k s eid hs (hids ▸ hmem)
    exact ⟨e, hents ▸ he, hb⟩
  · intro k s' h
    obtain ⟨s, hs, hcs, hids⟩ := hsome2 k s' h
    have hwf := hInv.storeWf k s hs
    rw [hcs, hids]
    exact hwf
  · intro eid e h
    rw [heids]
    exact hInv.idBound eid e (hents ▸ h)
  · intro k hge
    exact hnone k (hInv.storeMax k hge)

/-! ### Invariant along every reachable state -/

theorem mgrInv_step (kp : Nat → Nat) (m : Manager) (op : Op) (hInv : MgrInv m) :
    MgrInv (step kp m op) := by
  cases op with
  | create => exact mgrInv_create m hInv
  | addC eid k v =>
    by_cases hk : k < MAX_COMPONENTS
    · simp only [step, if_pos hk]
      exact mgrInv_entityAdd kp m eid k v hInv hk
    · simp only [step, if_neg hk]
      exact hInv
  | getC eid k =>
    by_cases hk : k < MAX_COMPONENTS
    · simp only [step, if_pos hk]
      exact mgrInv_entityGet kp m eid k hInv hk
    · simp only [step, if_neg hk]
      exact hInv
  | removeC eid k =>
    by_cases hk : k < MAX_COMPONENTS
    · simp only [step, if_pos hk]
      exact mgrInv_entityRemove kp m eid k hInv hk
    · simp only [step, if_neg hk]
      exact hInv
  | removeE eid => exact mgrInv_destroy m eid hInv
  | tick => exact mgrInv_tick m hInv

theorem mgrInv_foldl (kp : Nat → Nat) (ops : List Op) :
    ∀ m, MgrInv m → MgrInv (ops.foldl (step kp) m) := by
  induction ops with
  | nil =>
    intro m hm
    exact hm
  | cons op rest ih =>
    intro m hm
    rw [List.foldl_cons]
    exact ih _ (mgrInv_step kp m op hm)

theorem mgrInv_reach (kp : Nat → Nat) (ops : List Op) : MgrInv (reach kp ops) :=
  mgrInv_foldl kp ops initMgr inv_init

theorem entitiesDestroy_prioritised (m : Manager) (eid : Nat) (m' : Manager)
    (h : entitiesDestroy m eid = some m') : m'.prioritised = m.prioritised := by
  cases hent : m.entities eid with
  | none =>
    rw [entitiesDestroy, hent] at h
    cases h
  | some e =>
    simp only [entitiesDestroy, hent] at h
    cases hdl : destroyLoop e m.systems (List.range MAX_COMPONENTS) with
    | none =>
      rw [hdl] at h
      cases h
    | some sys' =>
      rw [hdl] at h
      simp only [Option.map_some'] at h
      obtain rfl := (Option.some.inj h).symm
      rfl

theorem step_prioritised_mono (kp : Nat → Nat) (m : Manager) (op : Op) (c : Nat)
    (h : c ∈ m.prioritised) : c ∈ (step kp m op).prioritised := by
  cases op with
  | create => exact h
  | addC eid k v =>
    by_cases hk : k < MAX_COMPONENTS
    · simp only [step, if_pos hk]
      cases hent : m.entities eid with
      | none => simpa [entityAdd, hent] using h
      | some e =>
        by_cases hbit : e.bits.getD k false = true
        · simp only [entityAdd, hent, if_pos hbit]
          exact getSystemS_prioritised_mem kp m k c h
        · simp only [entityAdd, hent, hbit, if_false, updEnt, updSys]
          exact getSystemS_prioritised_mem kp m k c h
    · simpa only [step, if_neg hk] using h
  | getC eid k =>
    by_cases hk : k < MAX_COMPONENTS
    · simp only [step, if_pos hk]
      cases hent : m.entities eid with
      | none => simpa [entityGet, hent] using h
      | some e =>
        by_cases hbit : e.bits.getD k false = false
        · simpa only [entityGet, hent, if_pos hbit] using h
        · simp only [entityGet, hent, if_neg hbit]
          exact getSystemS_prioritised_mem kp m k c h
    · simpa only [step, if_neg hk] using h
  | removeC eid k =>
    by_cases hk : k < MAX_COMPONENTS
    · simp only [step, if_pos hk]
      cases hent : m.entities eid with
      | none => simpa [entityRemove, hent] using h
      | some e =>
        simp only [entityRemove, hent, updEnt, updSys]
        exact getSystemS_prioritised_mem kp m k c h
    · simpa only [step, if_neg hk] using h
  | removeE eid =>
    show c ∈ ((entitiesDestroy m eid).getD m).prioritised
    cases hd : entitiesDestroy m eid with
    | none => simpa using h
    | some m' =>
      simp only [Option.getD_some]
      rw [entitiesDestroy_prioritised m eid m' hd]
      exact h
  | tick => exact h

theorem foldl_prioritised_mono (kp : Nat → Nat) (ops : List Op) :
    ∀ (m : Manager) (c : Nat), c ∈ m.prioritised →
      c ∈ (ops.foldl (step kp) m).prioritised := by
  induction ops with
  | nil =>
    intro m c h
    exact h
  | cons op rest ih =>
    intro m c h
    rw [List.foldl_cons]
    exact ih _ c (step_prioritised_mono kp m op c h)

/-! ### Operation characterisations on invariant states -/

theorem storeLen_getSystemS (kp : Nat → Nat) (m : Manager) (k : Nat) :
    (getSystemS kp m k).2.components.length = storeLen m k := by
  cases h : m.systems k with
  | some s => simp [getSystemS, storeLen, h]
  | none => simp [getSystemS, storeLen, h, defaultSystem]

/-- `Entity::Add` on an entity that does not yet have the kind: the component
is constructed at the back of the kind's store (created on first use), the
entity id is appended, the membership bit is set, and the returned pointer is
the new back index. -/
theorem entityAdd_fresh (kp : Nat → Nat) (m : Manager) (eid k v : Nat)
    (e : EntityS) (hent : m.entities eid = some e)
    (hbit : ¬ e.bits.getD k false = true)
    (hnotmem : eid ∉ (getSystemS kp m k).2.ids) :
    (entityAdd kp m eid k v).2 = some (getSystemS kp m k).2.components.length ∧
    (∀ c, (entityAdd kp m eid k v).1.systems c =
      if c = k then
        some { (getSystemS kp m k).2 with
               components := (getSystemS kp m k).2.components ++ [v],
               ids := (getSystemS kp m k).2.ids ++ [eid] }
      else m.systems c) ∧
    (∀ i, (entityAdd kp m eid k v).1.entities i =
      if i = eid then some { e with bits := e.bits.set k true }
      else m.entities i) ∧
    (entityAdd kp m eid k v).1.prioritised = (getSystemS kp m k).1.prioritised := by
  have haddc : addComponent (getSystemS kp m k).2 eid v =
      ({ (getSystemS kp m k).2 with
         components := (getSystemS kp m k).2.components ++ [v],
         ids := (getSystemS kp m k).2.ids ++ [eid] },
       (getSystemS kp m k).2.components.length) := by
    simp only [addComponent,
      (getComponentIdx_eq_none_iff (getSystemS kp m k).2 eid).mpr hnotmem]
  refine ⟨?_, ?_, ?_, ?_⟩
  · simp only [entityAdd, hent, hbit, Bool.false_eq_true, if_false, haddc]
  · intro c
    simp only [entityAdd, hent, hbit, if_false, haddc, updEnt, updSys]
    by_cases hc : c = k
    · simp [hc]
    · simp [hc, getSystemS_systems_ne kp m k c hc]
  · intro i
    simp only [entityAdd, hent, hbit, if_false, haddc, updEnt, updSys]
    by_cases hi : i = eid
    · simp [hi]
    · simp [hi, getSystemS_entities]
  · simp only [entityAdd, hent, hbit, Bool.false_eq_true, if_false, haddc,
      updEnt, updSys]

/-- `Entity::Remove` fully characterised: the kind's store (created on first
use) has `RemoveComponent` applied and the membership bit is cleared. -/
theorem entityRemove_char (kp : Nat → Nat) (m : Manager) (eid k : Nat)
    (e : EntityS) (hent : m.entities eid = some e) :
    (∀ c, (entityRemove kp m eid k).systems c =
      if c = k then some (removeComponent (getSystemS kp m k).2 eid)
      else m.systems c) ∧
    (∀ i, (entityRemove kp m eid k).entities i =
      if i = eid then some { e with bits := e.bits.set k false }
      else m.entities i) ∧
    (entityRemove kp m eid k).prioritised = (getSystemS kp m k).1.prioritised := by
  refine ⟨?_, ?_, ?_⟩
  · intro c
    simp only [entityRemove, hent, updEnt, updSys]
    by_cases hc : c = k
    · simp [hc]
    · simp [hc, getSystemS_systems_ne kp m k c hc]
  · intro i
    simp only [entityRemove, hent, updEnt, updSys]
    by_cases hi : i = eid
    · simp [hi]
    · simp [hi, getSystemS_entities]
  · simp only [entityRemove, hent, updEnt, updSys]

theorem set_false_eq (l : List Bool) (k : Nat) (h : l.getD k false = false) :
    l.set k false = l := by
  induction l generalizing k with
  | nil => simp
  | cons a l ih =>
    cases k with
    | zero =>
      rw [List.getD_cons_zero] at h
      simp [h]
    | succ k =>
      rw [List.getD_cons_succ] at h
      simp [ih k h]

/-- In an invariant state, an entity whose membership bit for `k` is clear is
not held by `k`'s store (as returned by `GetSystem`). -/
theorem bit_false_not_mem (kp : Nat → Nat) (m : Manager) (eid k : Nat)
    (e : EntityS) (hInv : MgrInv m) (hent : m.entities eid = some e)
    (hbit : ¬ e.bits.getD k false = true) :
    eid ∉ (getSystemS kp m k).2.ids := by
  intro hmem
  obtain ⟨e', he', hb'⟩ := getSystemS_storeBit kp m k eid hInv hmem
  rw [hent] at he'
  obtain rfl := Option.some.inj he'
  exact hbit hb'

/-- C2: in every state reachable through the public interface (any sequence of
entity creation, component add/get/remove, entity destruction and ticks, for
any priority assignment), `Has<K>` on an entity id agrees exactly with "kind
K's store holds an entity-id slot for it" — the membership bit and the store
contents never disagree. -/
theorem C2_membership_consistency (kp : Nat → Nat) (ops : List Op) (eid k : Nat) :
    entityHas (reach kp ops) eid k = storeHoldsB (reach kp ops) k eid := by
  have hInv := mgrInv_reach kp ops
  cases hent : (reach kp ops).entities eid with
  | none =>
    simp only [entityHas, hent]
    cases hs : (reach kp ops).systems k with
    | none => simp [storeHoldsB, hs]
    | some s =>
      simp only [storeHoldsB, hs]
      by_cases hmem : eid ∈ s.ids
      · obtain ⟨e, he, _⟩ := hInv.storeBit k s eid hs hmem
        rw [hent] at he
        cases he
      · simp [hmem]
  | some e =>
    simp only [entityHas, hent]
    cases hb : e.bits.getD k false with
    | true =>
      obtain ⟨_, s, hs, hmem⟩ := hInv.bitStore eid e k hent hb
      simp [storeHoldsB, hs, hmem]
    | false =>
      cases hs : (reach kp ops).systems k with
      | none => simp [storeHoldsB, hs]
      | some s =>
        simp only [storeHoldsB, hs]
        by_cases hmem : eid ∈ s.ids
        · obtain ⟨e', he', hb'⟩ := hInv.storeBit k s eid hs hmem
          rw [hent] at he'
          obtain rfl := Option.some.inj he'
          rw [hb'] at hb
          cases hb
        · simp [hmem]

/-- C9: in every reachable state, every set bit `k` of a live entity's
membership bitset has a registered (non-null) store under kind id `k`, and
consequently the unguarded `mgr_systems.Get(i)->RemoveComponent(e)` loop of
entity destruction never dereferences a null store: `entitiesDestroy` is
defined (its `none` case, which models the null dereference, is never hit). -/
theorem C9_set_bit_store_exists (kp : Nat → Nat) (ops : List Op) (eid : Nat)
    (e : EntityS) (hent : (reach kp ops).entities eid = some e) :
    (∀ k, e.bits.getD k false = true → ((reach kp ops).systems k).isSome) ∧
    (entitiesDestroy (reach kp ops) eid).isSome := by
  have hInv := mgrInv_reach kp ops
  constructor
  · intro k hb
    obtain ⟨_, s, hs, _⟩ := hInv.bitStore eid e k hent hb
    simp [hs]
  · obtain ⟨m', hm', _⟩ := destroy_characterised _ eid hInv e hent
    simp [hm']

/-- Closed witness for C9: destroying the first created entity is defined. -/
theorem C9_witness :
    (entitiesDestroy (reach kp0 [Op.create]) 1).isSome :=
  (C9_set_bit_store_exists kp0 [Op.create] 1
    ⟨1, List.replicate MAX_COMPONENTS false⟩ (by decide)).2

/-- C4: destroying a live entity in any reachable state removes its
association from every store that held a component for it (running the kind's
on-remove hook for exactly that association), and a subsequent registry lookup
of the entity's identity returns no-value. -/
theorem C4_destroy_cascades (kp : Nat → Nat) (ops : List Op) (eid : Nat)
    (e : EntityS) (hent : (reach kp ops).entities eid = some e) :
    ∃ m', entitiesDestroy (reach kp ops) eid = some m' ∧
      (∀ k s, (reach kp ops).systems k = some s → eid ∈ s.ids →
        ∃ s', m'.systems k = some s' ∧ eid ∉ s'.ids ∧
          ∃ v, s'.removeLog = s.removeLog ++ [(eid, v)]) ∧
      entitiesGet m' eid = none := by
  have hInv := mgrInv_reach kp ops
  obtain ⟨m', hm', hsys3, hent3, _, _⟩ :=
    destroy_characterised _ eid hInv e hent
  refine ⟨m', hm', ?_, ?_⟩
  · intro k s hs hmem
    obtain ⟨e', he', hb'⟩ := hInv.storeBit k s eid hs hmem
    rw [hent] at he'
    obtain rfl := Option.some.inj he'
    have hwf := hInv.storeWf k s hs
    have hmm := removeComponent_mem s eid hwf.1 hwf.2 hmem
    refine ⟨removeComponent s eid, ?_, hmm.1, hmm.2.2.2.2.1⟩
    rw [hsys3 k, if_pos hb', hs]
    simp
  · rw [entitiesGet, hent3 eid, if_pos rfl]

/-- Closed witness for C4: destroying the entity `1` that holds a kind-0
component yields a defined state in which the registry lookup is no-value. -/
theorem C4_witness :
    (entitiesDestroy (reach kp0 [Op.create, Op.addC 1 0 5]) 1).isSome ∧
    (entitiesDestroy (reach kp0 [Op.create, Op.addC 1 0 5]) 1).map
      (fun m' => entitiesGet m' 1) = some none := by
  obtain ⟨m', hm', _, hget⟩ := C4_destroy_cascades kp0 [Op.create, Op.addC 1 0 5] 1
    ⟨1, (List.replicate MAX_COMPONENTS false).set 0 true⟩ (by decide)
  rw [hm']
  exact ⟨rfl, by rw [Option.map_some', hget]⟩

/-- C5: adding the same kind twice to an entity that does not yet carry it
returns the same component (same store slot) both times, the second call
changes nothing at all (the whole manager state is untouched), and the kind's
store grows by exactly one over the two calls. -/
theorem C5_idempotent_add (kp : Nat → Nat) (ops : List Op) (eid k v₁ v₂ : Nat)
    (e : EntityS) (hk : k < MAX_COMPONENTS)
    (hent : (reach kp ops).entities eid = some e)
    (hbit : e.bits.getD k false = false) :
    (entityAdd kp (entityAdd kp (reach kp ops) eid k v₁).1 eid k v₂).2 =
      (entityAdd kp (reach kp ops) eid k v₁).2 ∧
    (entityAdd kp (reach kp ops) eid k v₁).2.isSome ∧
    (entityAdd kp (entityAdd kp (reach kp ops) eid k v₁).1 eid k v₂).1 =
      (entityAdd kp (reach kp ops) eid k v₁).1 ∧
    storeLen (entityAdd kp (entityAdd kp (reach kp ops) eid k v₁).1 eid k v₂).1 k =
      storeLen (reach kp ops) k + 1 := by
  have hInv := mgrInv_reach kp ops
  have hbitn : ¬ e.bits.getD k false = true := by
    rw [hbit]
    simp
  have hnotmem := bit_false_not_mem kp (reach kp ops) eid k e hInv hent hbitn
  have hwf := getSystemS_wf kp (reach kp ops) k hInv
  have hfresh := entityAdd_fresh kp (reach kp ops) eid k v₁ e hent hbitn hnotmem
  have hblen := hInv.bitsLen eid e hent
  have hent1 : (entityAdd kp (reach kp ops) eid k v₁).1.entities eid =
      some { e with bits := e.bits.set k true } := by
    rw [hfresh.2.2.1 eid, if_pos rfl]
  have hsys1 : (entityAdd kp (reach kp ops) eid k v₁).1.systems k =
      some { (getSystemS kp (reach kp ops) k).2 with
             components := (getSystemS kp (reach kp ops) k).2.components ++ [v₁],
             ids := (getSystemS kp (reach kp ops) k).2.ids ++ [eid] } := by
    rw [hfresh.2.1 k, if_pos rfl]
  have hbit1 : (e.bits.set k true).getD k false = true :=
    getD_set_self e.bits k true false (by omega)
  have hscan2 : scanIdx (· == eid)
      ((getSystemS kp (reach kp ops) k).2.ids ++ [eid]) =
      some (getSystemS kp (reach kp ops) k).2.ids.length := by
    refine scanIdx_prefix _ _ [] eid ?_ (by simp)
    intro x hx
    have hxe : x ≠ eid := fun he => hnotmem (he ▸ hx)
    simp [hxe]
  have h2 : ∀ m₁ : Manager,
      m₁.entities eid = some { e with bits := e.bits.set k true } →
      m₁.systems k =
        some { (getSystemS kp (reach kp ops) k).2 with
               components := (getSystemS kp (reach kp ops) k).2.components ++ [v₁],
               ids := (getSystemS kp (reach kp ops) k).2.ids ++ [eid] } →
      entityAdd kp m₁ eid k v₂ =
        (m₁, some (getSystemS kp (reach kp ops) k).2.ids.length) := by
    intro m₁ he1 hs1
    simp only [entityAdd, he1, hbit1, if_true, getSystemS, hs1,
      getComponentIdx, hscan2]
    exact congrArg (Prod.mk m₁) hscan2
  rw [h2 (entityAdd kp (reach kp ops) eid k v₁).1 hent1 hsys1]
  refine ⟨?_, ?_, rfl, ?_⟩
  · rw [hfresh.1, hwf.2]
  · rw [hfresh.1]
    rfl
  · show storeLen (entityAdd kp (reach kp ops) eid k v₁).1 k = _
    rw [storeLen, hsys1]
    show ((getSystemS kp (reach kp ops) k).2.components ++ [v₁]).length = _
    rw [List.length_append, ← storeLen_getSystemS kp (reach kp ops) k]
    rfl

/-- Closed witness for C5 at a concrete state: entity 1 fresh for kind 0. -/
theorem C5_witness :
    (entityAdd kp0 (entityAdd kp0 (reach kp0 [Op.create]) 1 0 5).1 1 0 7).2 =
      (entityAdd kp0 (reach kp0 [Op.create]) 1 0 5).2 ∧
    storeLen (entityAdd kp0 (entityAdd kp0 (reach kp0 [Op.create]) 1 0 5).1 1 0 7).1 0 =
      storeLen (reach kp0 [Op.create]) 0 + 1 := by
  have h := C5_idempotent_add kp0 [Op.create] 1 0 5 7
    ⟨1, List.replicate MAX_COMPONENTS false⟩ (by decide) (by decide) (by decide)
  exact ⟨h.1, h.2.2.2⟩

/-- C8: for an entity that does not have kind `k` (bit clear), `Get` returns
no-value without touching the state, `Has` returns false, and `Remove` changes
no store's contents and no entity record — all three are ordinary total
operations with no failure path. -/
theorem C8_absent_kind_safe (kp : Nat → Nat) (ops : List Op) (eid k : Nat)
    (e : EntityS) (hk : k < MAX_COMPONENTS)
    (hent : (reach kp ops).entities eid = some e)
    (hbit : e.bits.getD k false = false) :
    entityGet kp (reach kp ops) eid k = ((reach kp ops), none) ∧
    entityHas (reach kp ops) eid k = false ∧
    (∀ k' s', (reach kp ops).systems k' = some s' →
      ∃ s'', (entityRemove kp (reach kp ops) eid k).systems k' = some s'' ∧
        s''.components = s'.components ∧ s''.ids = s'.ids) ∧
    (∀ eid' e', (reach kp ops).entities eid' = some e' →
      (entityRemove kp (reach kp ops) eid k).entities eid' = some e') := by
  have hInv := mgrInv_reach kp ops
  have hbitn : ¬ e.bits.getD k false = true := by
    rw [hbit]
    simp
  have hnotmem := bit_false_not_mem kp (reach kp ops) eid k e hInv hent hbitn
  have hchar := entityRemove_char kp (reach kp ops) eid k e hent
  have hrc : removeComponent (getSystemS kp (reach kp ops) k).2 eid =
      (getSystemS kp (reach kp ops) k).2 := removeComponent_not_mem _ _ hnotmem
  refine ⟨?_, ?_, ?_, ?_⟩
  · simp only [entityGet, hent, if_pos hbit]
  · simp only [entityHas, hent, hbit]
  · intro k' s' hs'
    rw [hchar.1 k']
    by_cases hkk : k' = k
    · subst hkk
      have hgs : (getSystemS kp (reach kp ops) k').2 = s' := by
        simp [getSystemS, hs']
      rw [if_pos rfl, hrc, hgs]
      exact ⟨s', rfl, rfl, rfl⟩
    · rw [if_neg hkk]
      exact ⟨s', hs', rfl, rfl⟩
  · intro eid' e' he'
    rw [hchar.2.1 eid']
    by_cases hi : eid' = eid
    · rw [if_pos hi]
      rw [hi, hent] at he'
      obtain rfl := Option.some.inj he'
      rw [set_false_eq e.bits k hbit]
    · rw [if_neg hi]
      exact he'

/-- Closed witness for C8 at a concrete state: entity 1 without kind 0. -/
theorem C8_witness :
    entityGet kp0 (reach kp0 [Op.create]) 1 0 = ((reach kp0 [Op.create]), none) ∧
    entityHas (reach kp0 [Op.create]) 1 0 = false := by
  have h := C8_absent_kind_safe kp0 [Op.create] 1 0
    ⟨1, List.replicate MAX_COMPONENTS false⟩ (by decide) (by decide) (by decide)
  exact ⟨h.1, h.2.1⟩

/-- C10: `Remove<K>` on an entity when no store for `K` exists yet creates a
default-constructed empty store for `K` as a side effect, registers it in the
priority-ordered dispatch list (so every subsequent tick invokes it), and
leaves every existing store's contents, every entity record and every
membership bit unchanged. -/
theorem C10_remove_absent_kind_creates_store (kp : Nat → Nat) (ops : List Op)
    (eid k : Nat) (e : EntityS) (_hk : k < MAX_COMPONENTS)
    (hent : (reach kp ops).entities eid = some e)
    (hnone : (reach kp ops).systems k = none) :
    (entityRemove kp (reach kp ops) eid k).systems k = some (defaultSystem kp k) ∧
    (defaultSystem kp k).components = [] ∧ (defaultSystem kp k).ids = [] ∧
    k ∈ (entityRemove kp (reach kp ops) eid k).prioritised ∧
    (∀ ops₂ : List Op,
      k ∈ tickTrace (ops₂.foldl (step kp) (entityRemove kp (reach kp ops) eid k))) ∧
    (∀ k', k' ≠ k →
      (entityRemove kp (reach kp ops) eid k).systems k' = (reach kp ops).systems k') ∧
    (∀ i, (entityRemove kp (reach kp ops) eid k).entities i = (reach kp ops).entities i) := by
  have hInv := mgrInv_reach kp ops
  have hchar := entityRemove_char kp (reach kp ops) eid k e hent
  have hgs2 : (getSystemS kp (reach kp ops) k).2 = defaultSystem kp k := by
    simp [getSystemS, hnone]
  have hbit : e.bits.getD k false = false := by
    cases hb : e.bits.getD k false with
    | false => rfl
    | true =>
      obtain ⟨_, s, hs, _⟩ := hInv.bitStore eid e k hent hb
      rw [hnone] at hs
      cases hs
  have hrc : removeComponent (getSystemS kp (reach kp ops) k).2 eid =
      defaultSystem kp k := by
    rw [hgs2]
    exact removeComponent_not_mem _ _ (by simp [defaultSystem])
  have hmem : k ∈ (getSystemS kp (reach kp ops) k).1.prioritised := by
    simp only [getSystemS, hnone, systemsAdd, Option.isSome_none,
      Bool.false_eq_true, if_false]
    exact mem_insertPrior_self _ _ _ _
  refine ⟨?_, rfl, rfl, ?_, ?_, ?_, ?_⟩
  · rw [hchar.1 k, if_pos rfl, hrc]
  · rw [hchar.2.2]
    exact hmem
  · intro ops₂
    show k ∈ (ops₂.foldl (step kp) (entityRemove kp (reach kp ops) eid k)).prioritised
    refine foldl_prioritised_mono kp ops₂ _ k ?_
    rw [hchar.2.2]
    exact hmem
  · intro k' hkk
    rw [hchar.1 k', if_neg hkk]
  · intro i
    rw [hchar.2.1 i]
    by_cases hi : i = eid
    · rw [if_pos hi, set_false_eq e.bits k hbit, hi, hent]
    · rw [if_neg hi]

/-- Closed witness for C10: removing kind 0 from entity 1 before any kind-0
store exists registers an empty default store that the next tick invokes. -/
theorem C10_witness :
    (entityRemove kp0 (reach kp0 [Op.create]) 1 0).systems 0 =
      some (defaultSystem kp0 0) ∧
    0 ∈ tickTrace (List.foldl (step kp0)
      (entityRemove kp0 (reach kp0 [Op.create]) 1 0) [Op.tick]) := by
  have h := C10_remove_absent_kind_creates_store kp0 [Op.create] 1 0
    ⟨1, List.replicate MAX_COMPONENTS false⟩ (by decide) (by decide) (by decide)
  exact ⟨h.1, h.2.2.2.2.1 [Op.tick]⟩

/-! ### Priority-ordered insertion lemmas -/

/-- The insertion scan splits the vector at the first entry of strictly lower
priority: everything before the new entry had priority at or above the new
store's, and the first entry after it (if any) is strictly below. -/
theorem insertPrior_split (gp : Nat → Nat) (p cid : Nat) (l : List Nat) :
    ∃ l₁ l₂, l = l₁ ++ l₂ ∧ insertPrior gp p cid l = l₁ ++ cid :: l₂ ∧
      (∀ x ∈ l₁, ¬ gp x < p) ∧ (∀ y, l₂.head? = some y → gp y < p) := by
  induction l with
  | nil => exact ⟨[], [], rfl, rfl, by simp, by simp⟩
  | cons x xs ih =>
    by_cases h : gp x < p
    · refine ⟨[], x :: xs, rfl, by simp [insertPrior, h], by simp, ?_⟩
      intro y hy
      rw [List.head?_cons] at hy
      obtain rfl := Option.some.inj hy
      exact h
    · obtain ⟨l₁, l₂, hsplit, hins, hall, hhead⟩ := ih
      refine ⟨x :: l₁, l₂, by simp [hsplit], ?_, ?_, hhead⟩
      · simp [insertPrior, h, hins]
      · intro y hy
        rcases List.mem_cons.mp hy with rfl | hy
        · exact h
        · exact hall y hy

theorem mem_of_mem_insertPrior (gp : Nat → Nat) (p cid x : Nat) (l : List Nat)
    (h : x ∈ insertPrior gp p cid l) : x = cid ∨ x ∈ l := by
  obtain ⟨l₁, l₂, hsplit, hins, -, -⟩ := insertPrior_split gp p cid l
  rw [hins] at h
  rcases List.mem_append.mp h with h | h
  · exact Or.inr (hsplit ▸ List.mem_append.mpr (Or.inl h))
  · rcases List.mem_cons.mp h with rfl | h
    · exact Or.inl rfl
    · exact Or.inr (hsplit ▸ List.mem_append.mpr (Or.inr h))

theorem nodup_insert_mid (l₁ l₂ : List Nat) (x : Nat)
    (hnd : (l₁ ++ l₂).Nodup) (h₁ : x ∉ l₁) (h₂ : x ∉ l₂) :
    (l₁ ++ x :: l₂).Nodup := by
  induction l₁ with
  | nil =>
    rw [List.nil_append, List.nodup_cons]
    exact ⟨h₂, hnd⟩
  | cons a l ih =>
    rw [List.cons_append, List.nodup_cons] at hnd
    rw [List.cons_append, List.nodup_cons]
    refine ⟨?_, ih hnd.2 (fun hm => h₁ (List.mem_cons_of_mem a hm))⟩
    intro hmem
    rcases List.mem_append.mp hmem with h | h
    · exact hnd.1 (List.mem_append.mpr (Or.inl h))
    · rcases List.mem_cons.mp h with rfl | h
      · exact h₁ (List.mem_cons_self a l)
      · exact hnd.1 (List.mem_append.mpr (Or.inr h))

theorem insertPrior_nodup (gp : Nat → Nat) (p cid : Nat) (l : List Nat)
    (hnd : l.Nodup) (hcid : cid ∉ l) :
    (insertPrior gp p cid l).Nodup := by
  obtain ⟨l₁, l₂, hsplit, hins, -, -⟩ := insertPrior_split gp p cid l
  rw [hins]
  subst hsplit
  exact nodup_insert_mid l₁ l₂ cid hnd
    (fun h => hcid (List.mem_append.mpr (Or.inl h)))
    (fun h => hcid (List.mem_append.mpr (Or.inr h)))

theorem insertPrior_pairwise (gp : Nat → Nat) (p cid : Nat) (l : List Nat)
    (hcid : gp cid = p)
    (hl : l.Pairwise (fun a b => gp b ≤ gp a)) :
    (insertPrior gp p cid l).Pairwise (fun a b => gp b ≤ gp a) := by
  obtain ⟨l₁, l₂, hsplit, hins, hall, hhead⟩ := insertPrior_split gp p cid l
  rw [hins]
  subst hsplit
  rw [List.pairwise_append] at hl
  obtain ⟨h1, h2, h12⟩ := hl
  have hlow : ∀ b ∈ l₂, gp b < p := by
    intro b hb
    cases l₂ with
    | nil => simp at hb
    | cons y ys =>
      have hy : gp y < p := hhead y rfl
      rcases List.mem_cons.mp hb with rfl | hb
      · exact hy
      · rw [List.pairwise_cons] at h2
        have := h2.1 b hb
        omega
  rw [List.pairwise_append]
  refine ⟨h1, ?_, ?_⟩
  · rw [List.pairwise_cons]
    refine ⟨?_, h2⟩
    intro b hb
    have := hlow b hb
    omega
  · intro a ha b hb
    rcases List.mem_cons.mp hb with rfl | hb
    · have := hall a ha
      omega
    · exact h12 a ha b hb

theorem sublist_insertPrior (gp : Nat → Nat) (p cid : Nat) (l : List Nat) :
    List.Sublist l (insertPrior gp p cid l) := by
  obtain ⟨l₁, l₂, hsplit, hins, -, -⟩ := insertPrior_split gp p cid l
  rw [hins, hsplit]
  exact List.Sublist.append (List.Sublist.refl l₁) (List.sublist_cons_self cid l₂)

/-- Inserting a store after an equal-priority store already in a
priority-sorted vector places it after that store: registration order breaks
the tie. -/
theorem before_insertPrior (gp : Nat → Nat) (p cid c₁ : Nat) (l : List Nat)
    (hmem : c₁ ∈ l) (hp₁ : gp c₁ = p)
    (hl : l.Pairwise (fun a b => gp b ≤ gp a)) :
    List.Sublist [c₁, cid] (insertPrior gp p cid l) := by
  obtain ⟨l₁, l₂, hsplit, hins, hall, hhead⟩ := insertPrior_split gp p cid l
  rw [hins]
  subst hsplit
  rw [List.pairwise_append] at hl
  have hlow : ∀ b ∈ l₂, gp b < p := by
    intro b hb
    cases l₂ with
    | nil => simp at hb
    | cons y ys =>
      have hy : gp y < p := hhead y rfl
      rcases List.mem_cons.mp hb with rfl | hb
      · exact hy
      · have h2 := hl.2.1
        rw [List.pairwise_cons] at h2
        have := h2.1 b hb
        omega
  have hc₁ : c₁ ∈ l₁ := by
    rcases List.mem_append.mp hmem with h | h
    · exact h
    · have := hlow c₁ h
      omega
  have hs1 : List.Sublist [c₁] l₁ := List.singleton_sublist.mpr hc₁
  have hs2 : List.Sublist [cid] (cid :: l₂) := (List.nil_sublist l₂).cons₂ cid
  exact List.Sublist.append hs1 hs2

/-! ### Registration-order invariant -/

theorem prioOf_eq_of_systems_eq (m₁ m₂ : Manager) (c : Nat)
    (h : m₁.systems c = m₂.systems c) : prioOf m₁ c = prioOf m₂ c := by
  simp only [prioOf, h]

theorem systemsAdd_prioritised_none (m : Manager) (cid : Nat) (sys : SystemS)
    (hreg : m.systems cid = none) :
    (systemsAdd m cid sys).prioritised =
      insertPrior (prioOf (updSys m cid (some sys))) sys.priority cid
        m.prioritised := by
  rw [systemsAdd, if_neg (by simp [hreg])]
  rfl

theorem systemsAdd_mem_self (m : Manager) (cid : Nat) (sys : SystemS)
    (hreg : m.systems cid = none) :
    cid ∈ (systemsAdd m cid sys).prioritised := by
  rw [systemsAdd_prioritised_none m cid sys hreg]
  exact mem_insertPrior_self _ _ _ _

theorem prioOf_systemsAdd_self (m : Manager) (cid : Nat) (sys : SystemS)
    (hreg : m.systems cid = none) :
    prioOf (systemsAdd m cid sys) cid = sys.priority := by
  have h := systemsAdd_none_systems m cid sys hreg cid
  rw [if_pos rfl] at h
  simp [prioOf, h]

theorem systemsAdd_prioritised_sublist (m : Manager) (cid : Nat) (sys : SystemS) :
    List.Sublist m.prioritised (systemsAdd m cid sys).prioritised := by
  cases hreg : m.systems cid with
  | some s =>
    rw [systemsAdd_some_eq m cid sys (by simp [hreg])]
  | none =>
    rw [systemsAdd_prioritised_none m cid sys hreg]
    exact sublist_insertPrior _ _ _ _

theorem regInv_init : RegInv initMgr := by
  constructor <;> intros <;> simp_all [initMgr]

theorem regInv_systemsAdd (m : Manager) (cid : Nat) (sys : SystemS)
    (hInv : RegInv m) : RegInv (systemsAdd m cid sys) := by
  cases hreg : m.systems cid with
  | some s =>
    rw [systemsAdd_some_eq m cid sys (by simp [hreg])]
    exact hInv
  | none =>
    have hcid_not : cid ∉ m.prioritised := fun hmem => by
      have h := hInv.reg cid hmem
      rw [hreg] at h
      cases h
    have hsys' := systemsAdd_none_systems m cid sys hreg
    have hpr := systemsAdd_prioritised_none m cid sys hreg
    have hprioeq : ∀ c, c ≠ cid →
        prioOf (updSys m cid (some sys)) c = prioOf m c := by
      intro c h
      simp [prioOf, updSys, h]
    have hpriocid : prioOf (updSys m cid (some sys)) cid = sys.priority := by
      simp [prioOf, updSys]
    have hprio2 : ∀ c, prioOf (systemsAdd m cid sys) c =
        prioOf (updSys m cid (some sys)) c := by
      intro c
      refine prioOf_eq_of_systems_eq _ _ c ?_
      rw [hsys' c]
      simp [updSys]
    constructor
    · intro c hc
      rw [hpr] at hc
      rcases mem_of_mem_insertPrior _ _ _ _ _ hc with rfl | hc
      · simp [hsys' c]
      · rw [hsys' c]
        split
        · simp
        · exact hInv.reg c hc
    · intro c hc
      rw [hsys' c] at hc
      rw [hpr]
      by_cases h : c = cid
      · subst h
        exact mem_insertPrior_self _ _ _ _
      · rw [if_neg h] at hc
        exact mem_insertPrior_of_mem _ _ _ _ _ (hInv.complete c hc)
    · rw [hpr]
      exact insertPrior_nodup _ _ _ _ hInv.nodup hcid_not
    · rw [hpr]
      have hsorted : m.prioritised.Pairwise
          (fun a b => prioOf (updSys m cid (some sys)) b ≤
                      prioOf (updSys m cid (some sys)) a) := by
        refine hInv.sorted.imp_of_mem ?_
        intro a b ha hb hab
        have hane : a ≠ cid := fun he => hcid_not (he ▸ ha)
        have hbne : b ≠ cid := fun he => hcid_not (he ▸ hb)
        rw [hprioeq a hane, hprioeq b hbne]
        exact hab
      have h := insertPrior_pairwise (prioOf (updSys m cid (some sys)))
        sys.priority cid m.prioritised hpriocid hsorted
      refine h.imp ?_
      intro a b hab
      rw [hprio2 a, hprio2 b]
      exact hab

theorem foldAdd_regInv (rs : List (Nat × SystemS)) :
    ∀ m, RegInv m →
      RegInv (rs.foldl (fun m p => systemsAdd m p.1 p.2) m) := by
  induction rs with
  | nil =>
    intro m h
    exact h
  | cons hd rs' ih =>
    intro m h
    rw [List.foldl_cons]
    exact ih _ (regInv_systemsAdd m hd.1 hd.2 h)

theorem foldAdd_sublist (rs : List (Nat × SystemS)) :
    ∀ (m : Manager) (l : List Nat), List.Sublist l m.prioritised →
      List.Sublist l
        ((rs.foldl (fun m p => systemsAdd m p.1 p.2) m).prioritised) := by
  induction rs with
  | nil =>
    intro m l h
    exact h
  | cons hd rs' ih =>
    intro m l h
    rw [List.foldl_cons]
    exact ih _ l (h.trans (systemsAdd_prioritised_sublist m hd.1 hd.2))

/-- Once an equal-priority store `c₁` is registered, any later registration
`c₂` of the same priority is inserted after it, and the relative order then
persists through all further registrations. -/
theorem foldAdd_establish (rs : List (Nat × SystemS)) :
    ∀ (m : Manager) (c₁ c₂ : Nat) (s₂ : SystemS), RegInv m →
      c₁ ∈ m.prioritised → prioOf m c₁ = s₂.priority → c₂ ≠ c₁ →
      List.Sublist [(c₂, s₂)] rs →
      (∀ p ∈ rs, m.systems p.1 = none) →
      (rs.map Prod.fst).Nodup →
      List.Sublist [c₁, c₂]
        ((rs.foldl (fun m p => systemsAdd m p.1 p.2) m).prioritised) := by
  induction rs with
  | nil =>
    intro m c₁ c₂ s₂ _ _ _ _ hsub _ _
    simp at hsub
  | cons hd rs' ih =>
    intro m c₁ c₂ s₂ hInv hc₁ hp hne hsub hdisj hnd
    rw [List.foldl_cons]
    have hhd : m.systems hd.1 = none := hdisj hd (List.mem_cons_self _ _)
    rw [List.map_cons, List.nodup_cons] at hnd
    cases hsub with
    | cons _ htail =>
      have hc₁reg : (m.systems c₁).isSome := hInv.reg c₁ hc₁
      have hne2 : c₁ ≠ hd.1 := fun he => by
        rw [he, hhd] at hc₁reg
        cases hc₁reg
      refine ih (systemsAdd m hd.1 hd.2) c₁ c₂ s₂
        (regInv_systemsAdd m hd.1 hd.2 hInv)
        (systemsAdd_prioritised_mem m hd.1 c₁ hd.2 hc₁)
        ?_ hne htail ?_ hnd.2
      · rw [prioOf_eq_of_systems_eq (systemsAdd m hd.1 hd.2) m c₁
          (systemsAdd_systems_ne m hd.1 c₁ hd.2 hne2)]
        exact hp
      · intro p hp'
        have hpne : p.1 ≠ hd.1 := fun he =>
          hnd.1 (he ▸ List.mem_map_of_mem Prod.fst hp')
        rw [systemsAdd_systems_ne m hd.1 p.1 hd.2 hpne]
        exact hdisj p (List.mem_cons_of_mem hd hp')
    | cons₂ _ _ =>
      have hc₂not : c₂ ∉ m.prioritised := fun hmem => by
        have h := hInv.reg c₂ hmem
        rw [hhd] at h
        cases h
      have hbefore : List.Sublist [c₁, c₂]
          (systemsAdd m c₂ s₂).prioritised := by
        rw [systemsAdd_prioritised_none m c₂ s₂ hhd]
        refine before_insertPrior _ s₂.priority c₂ c₁ m.prioritised hc₁ ?_ ?_
        · rw [prioOf_eq_of_systems_eq (updSys m c₂ (some s₂)) m c₁
            (by simp [updSys, Ne.symm hne])]
          exact hp
        · refine hInv.sorted.imp_of_mem ?_
          intro a b ha hb hab
          have hane : a ≠ c₂ := fun he => hc₂not (he ▸ ha)
          have hbne : b ≠ c₂ := fun he => hc₂not (he ▸ hb)
          rw [prioOf_eq_of_systems_eq (updSys m c₂ (some s₂)) m a (by simp [updSys, hane]),
            prioOf_eq_of_systems_eq (updSys m c₂ (some s₂)) m b (by simp [updSys, hbne])]
          exact hab
      exact foldAdd_sublist rs' (systemsAdd m c₂ s₂) [c₁, c₂] hbefore

/-- Two registrations of equal priority end up in registration order in the
prioritised vector, whatever other registrations surround them. -/
theorem foldAdd_ties (rs : List (Nat × SystemS)) :
    ∀ (m : Manager) (c₁ c₂ : Nat) (s₁ s₂ : SystemS), RegInv m →
      List.Sublist [(c₁, s₁), (c₂, s₂)] rs → s₁.priority = s₂.priority →
      (∀ p ∈ rs, m.systems p.1 = none) → (rs.map Prod.fst).Nodup →
      List.Sublist [c₁, c₂]
        ((rs.foldl (fun m p => systemsAdd m p.1 p.2) m).prioritised) := by
  induction rs with
  | nil =>
    intro m c₁ c₂ s₁ s₂ _ hsub _ _ _
    simp at hsub
  | cons hd rs' ih =>
    intro m c₁ c₂ s₁ s₂ hInv hsub hpeq hdisj hnd
    rw [List.foldl_cons]
    have hhd : m.systems hd.1 = none := hdisj hd (List.mem_cons_self _ _)
    rw [List.map_cons, List.nodup_cons] at hnd
    cases hsub with
    | cons _ htail =>
      refine ih (systemsAdd m hd.1 hd.2) c₁ c₂ s₁ s₂
        (regInv_systemsAdd m hd.1 hd.2 hInv) htail hpeq ?_ hnd.2
      intro p hp'
      have hpne : p.1 ≠ hd.1 := fun he =>
        hnd.1 (he ▸ List.mem_map_of_mem Prod.fst hp')
      rw [systemsAdd_systems_ne m hd.1 p.1 hd.2 hpne]
      exact hdisj p (List.mem_cons_of_mem hd hp')
    | cons₂ _ htail =>
      have hc₂mem : c₂ ∈ List.map Prod.fst rs' :=
        List.mem_map_of_mem Prod.fst (List.singleton_sublist.mp htail)
      have hne : c₂ ≠ c₁ := fun he => hnd.1 (he ▸ hc₂mem)
      refine foldAdd_establish rs' (systemsAdd m c₁ s₁) c₁ c₂ s₂
        (regInv_systemsAdd m c₁ s₁ hInv)
        (systemsAdd_mem_self m c₁ s₁ hhd)
        ?_ hne htail ?_ hnd.2
      · rw [prioOf_systemsAdd_self m c₁ s₁ hhd]
        exact hpeq
      · intro p hp'
        have hpne : p.1 ≠ c₁ := by
          intro he
          apply hnd.1
          show c₁ ∈ List.map Prod.fst rs'
          rw [← he]
          exact List.mem_map_of_mem Prod.fst hp'
        rw [systemsAdd_systems_ne m c₁ p.1 s₁ hpne]
        exact hdisj p (List.mem_cons_of_mem _ hp')

/-- C3: registering stores X (priority 10), Y (priority 20), Z (priority 20)
under ids 0, 1, 2 in that order makes a tick invoke their update passes in the
order Y, Z, X; in general, after any sequence of registrations the prioritised
dispatch vector (which a tick traverses in order) is sorted by descending
priority, contains exactly the registered stores, and lists stores of equal
priority in registration order (first registered among equals runs first). -/
theorem C3_priority_ordering :
    ((regFold [(0, mkStore 10), (1, mkStore 20), (2, mkStore 20)]).prioritised
        = [1, 2, 0] ∧
     tickTrace (regFold [(0, mkStore 10), (1, mkStore 20), (2, mkStore 20)])
        = [1, 2, 0]) ∧
    (∀ rs : List (Nat × SystemS),
      (regFold rs).prioritised.Pairwise
        (fun a b => prioOf (regFold rs) b ≤ prioOf (regFold rs) a) ∧
      (∀ c, ((regFold rs).systems c).isSome ↔ c ∈ (regFold rs).prioritised)) ∧
    (∀ (rs : List (Nat × SystemS)) (c₁ c₂ : Nat) (s₁ s₂ : SystemS),
      (rs.map Prod.fst).Nodup →
      List.Sublist [(c₁, s₁), (c₂, s₂)] rs →
      s₁.priority = s₂.priority →
      List.Sublist [c₁, c₂] (regFold rs).prioritised) := by
  refine ⟨⟨by decide, by decide⟩, ?_, ?_⟩
  · intro rs
    have h := foldAdd_regInv rs initMgr regInv_init
    exact ⟨h.sorted, fun c => ⟨h.complete c, h.reg c⟩⟩
  · intro rs c₁ c₂ s₁ s₂ hnd hsub hpeq
    exact foldAdd_ties rs initMgr c₁ c₂ s₁ s₂ regInv_init hsub hpeq
      (fun p _ => rfl) hnd

/-- Closed witness for C3: two equal-priority registrations keep registration
order in the dispatch vector. -/
theorem C3_witness :
    List.Sublist [1, 2]
      (regFold [(1, mkStore 20), (2, mkStore 20)]).prioritised :=
  C3_priority_ordering.2.2 [(1, mkStore 20), (2, mkStore 20)] 1 2
    (mkStore 20) (mkStore 20) (by decide) (List.Sublist.refl _) rfl

/-! ### Store replacement -/

theorem eraseSkip_cons (c x : Nat) (xs : List Nat) :
    eraseSkip c (x :: xs) =
      if x = c then
        (match xs with
         | [] => []
         | y :: ys => y :: eraseSkip c ys)
      else x :: eraseSkip c xs := by
  cases xs <;> rfl

theorem eraseSkip_of_not_mem (c : Nat) (l : List Nat) (h : c ∉ l) :
    eraseSkip c l = l := by
  induction l with
  | nil => rfl
  | cons a l ih =>
    have hac : a ≠ c := fun he => h (he ▸ List.mem_cons_self a l)
    rw [eraseSkip_cons, if_neg hac, ih (fun hm => h (List.mem_cons_of_mem a hm))]

theorem eraseSkip_mid (c : Nat) (l₁ l₂ : List Nat) (h₁ : c ∉ l₁) (h₂ : c ∉ l₂) :
    eraseSkip c (l₁ ++ c :: l₂) = l₁ ++ l₂ := by
  induction l₁ with
  | nil =>
    rw [List.nil_append, eraseSkip_cons, if_pos rfl]
    cases l₂ with
    | nil => rfl
    | cons y ys =>
      have hy : c ∉ ys := fun hm => h₂ (List.mem_cons_of_mem y hm)
      show y :: eraseSkip c ys = y :: ys
      rw [eraseSkip_of_not_mem c ys hy]
  | cons a l ih =>
    have hac : a ≠ c := fun he => h₁ (he ▸ List.mem_cons_self a l)
    rw [List.cons_append, eraseSkip_cons, if_neg hac,
      ih (fun hm => h₁ (List.mem_cons_of_mem a hm))]
    rfl

theorem insertPrior_exact (gp : Nat → Nat) (p cid : Nat) (u v : List Nat)
    (hu : ∀ x ∈ u, ¬ gp x < p) (hv : ∀ y, v.head? = some y → gp y < p) :
    insertPrior gp p cid (u ++ v) = u ++ cid :: v := by
  induction u with
  | nil =>
    cases v with
    | nil => rfl
    | cons y ys =>
      rw [List.nil_append, insertPrior, if_pos (hv y rfl)]
      rfl
  | cons a u ih =>
    rw [List.cons_append, insertPrior,
      if_neg (hu a (List.mem_cons_self a u)), List.cons_append]
    rw [ih (fun x hx => hu x (List.mem_cons_of_mem a hx))]

theorem systemsDelete_eq (m : Manager) (cid : Nat) (s : SystemS)
    (hreg : m.systems cid = some s) :
    systemsDelete m cid =
      updSys { m with prioritised := eraseSkip cid m.prioritised } cid none := by
  simp only [systemsDelete, hreg]

theorem replaceSystem_prioritised (m : Manager) (cid : Nat) (nsys s : SystemS)
    (hreg : m.systems cid = some s) :
    (replaceSystem m cid nsys).prioritised =
      insertPrior (prioOf (updSys (systemsDelete m cid) cid (some nsys)))
        nsys.priority cid (eraseSkip cid m.prioritised) := by
  rw [replaceSystem]
  have hnone : (systemsDelete m cid).systems cid = none := by
    rw [systemsDelete_eq m cid s hreg]
    simp [updSys]
  rw [systemsAdd_prioritised_none _ cid nsys hnone]
  rw [systemsDelete_eq m cid s hreg]
  rfl

/-- Counterexample to C7 as stated: with two stores of equal priority
registered as ids 0 then 1 (dispatch order [0, 1]), replacing store 0 with an
equal-priority replacement re-inserts it after store 1 (dispatch order
[1, 0]): the replacement does NOT occupy the old store's position relative to
equal-priority stores. -/
theorem C7_counterexample :
    (regFold [(0, mkStore 20), (1, mkStore 20)]).prioritised = [0, 1] ∧
    (replaceSystem (regFold [(0, mkStore 20), (1, mkStore 20)]) 0
      (mkStore 20)).prioritised = [1, 0] ∧
    ¬ ((replaceSystem (regFold [(0, mkStore 20), (1, mkStore 20)]) 0
        (mkStore 20)).prioritised.indexOf 0 =
       (regFold [(0, mkStore 20), (1, mkStore 20)]).prioritised.indexOf 0) :=
  ⟨by decide, by decide, by decide⟩

/-- C7 (amended): replacing an existing store re-inserts the replacement
according to its priority, after every store of greater or equal priority.
When no other store shares the old store's priority, its position in the
dispatch list is exactly preserved; in general the replacement ends up last
among the stores of equal priority (every other equal-priority store precedes
it), so only its position relative to equal-priority stores can change. -/
theorem C7_replace_position (m : Manager) (cid : Nat) (s nsys : SystemS)
    (hInv : RegInv m) (hreg : m.systems cid = some s)
    (hp : nsys.priority = s.priority) :
    ((∀ c ∈ m.prioritised, c ≠ cid → prioOf m c ≠ s.priority) →
      (replaceSystem m cid nsys).prioritised = m.prioritised) ∧
    (∀ c ∈ m.prioritised, c ≠ cid → prioOf m c = s.priority →
      List.Sublist [c, cid] (replaceSystem m cid nsys).prioritised) := by
  have hpc : prioOf m cid = s.priority := by simp [prioOf, hreg]
  have hmem : cid ∈ m.prioritised := hInv.complete cid (by simp [hreg])
  obtain ⟨u, v, hdec⟩ := List.append_of_mem hmem
  have hmid := nodup_mid u v cid (hdec ▸ hInv.nodup)
  have hgp : ∀ c, c ≠ cid →
      prioOf (updSys (systemsDelete m cid) cid (some nsys)) c = prioOf m c := by
    intro c hc
    refine prioOf_eq_of_systems_eq _ _ c ?_
    rw [systemsDelete_eq m cid s hreg]
    simp [updSys, hc]
  have hrw := replaceSystem_prioritised m cid nsys s hreg
  have herase : eraseSkip cid m.prioritised = u ++ v := by
    rw [hdec]
    exact eraseSkip_mid cid u v hmid.1 hmid.2.1
  have hsorted := hInv.sorted
  rw [hdec, List.pairwise_append] at hsorted
  constructor
  · intro huniq
    rw [hrw, herase, hp, hdec]
    refine insertPrior_exact _ _ _ u v ?_ ?_
    · intro x hx
      have hxne : x ≠ cid := fun he => hmid.1 (he ▸ hx)
      have hge : prioOf m cid ≤ prioOf m x :=
        hsorted.2.2 x hx cid (List.mem_cons_self _ _)
      have hneq := huniq x (hdec ▸ List.mem_append.mpr (Or.inl hx)) hxne
      rw [hgp x hxne]
      rw [hpc] at hge
      omega
    · intro y hy
      cases v with
      | nil => cases hy
      | cons y' ys =>
        rw [List.head?_cons] at hy
        obtain rfl := Option.some.inj hy
        have hyne : y' ≠ cid := fun he =>
          hmid.2.1 (he ▸ List.mem_cons_self y' ys)
        have hle : prioOf m y' ≤ prioOf m cid := by
          have h2 := hsorted.2.1
          rw [List.pairwise_cons] at h2
          exact h2.1 y' (List.mem_cons_self _ _)
        have hneq := huniq y'
          (hdec ▸ List.mem_append.mpr (Or.inr (List.mem_cons_of_mem cid
            (List.mem_cons_self y' ys)))) hyne
        rw [hgp y' hyne]
        rw [hpc] at hle
        omega
  · intro c hcmem hcne hcp
    rw [hrw, herase, hp]
    refine before_insertPrior _ s.priority cid c (u ++ v) ?_ ?_ ?_
    · rw [hdec] at hcmem
      rcases List.mem_append.mp hcmem with h | h
      · exact List.mem_append.mpr (Or.inl h)
      · rcases List.mem_cons.mp h with rfl | h
        · exact absurd rfl hcne
        · exact List.mem_append.mpr (Or.inr h)
    · rw [hgp c hcne]
      exact hcp
    · have hsub : List.Sublist (u ++ v) (u ++ cid :: v) :=
        List.Sublist.append (List.Sublist.refl u) (List.sublist_cons_self cid v)
      have hpw : (u ++ v).Pairwise (fun a b => prioOf m b ≤ prioOf m a) := by
        have hs := hInv.sorted
        rw [hdec] at hs
        exact hs.sublist hsub
      refine hpw.imp_of_mem ?_
      intro a b ha hb hab
      have hane : a ≠ cid := fun he => by
        rcases List.mem_append.mp ha with h | h
        · exact hmid.1 (he ▸ h)
        · exact hmid.2.1 (he ▸ h)
      have hbne : b ≠ cid := fun he => by
        rcases List.mem_append.mp hb with h | h
        · exact hmid.1 (he ▸ h)
        · exact hmid.2.1 (he ▸ h)
      rw [hgp a hane, hgp b hbne]
      exact hab

/-- Closed witness for the amended C7: replacing the only priority-20 store
among priorities 30/20/10 leaves the dispatch order unchanged. -/
theorem C7_witness :
    (replaceSystem (regFold [(0, mkStore 30), (1, mkStore 20), (2, mkStore 10)])
      1 (mkStore 20)).prioritised =
    (regFold [(0, mkStore 30), (1, mkStore 20), (2, mkStore 10)]).prioritised := by
  have h := C7_replace_position
    (regFold [(0, mkStore 30), (1, mkStore 20), (2, mkStore 10)])
    1 (mkStore 20) (mkStore 20)
    (foldAdd_regInv _ initMgr regInv_init) (by decide) rfl
  exact h.1 (by decide)

/-- C6: the code evaluated at the failing input.  Registering a store under a
kind id at (or beyond) `MAX_COMPONENTS` — equivalently, exceeding the fixed
maximum number of distinct kinds — reaches the unchecked array write
`systems[cid] = sys` of `Systems::Add` out of bounds.  The model's `none`
result marks exactly that out-of-bounds access (undefined behavior in the
source); the source has no bounds check, assertion, or any other failure
path, so no fatal error is raised or surfaced at registration time. -/
theorem C6_registration_overflow_unchecked :
    systemsAddChecked initMgr MAX_COMPONENTS (mkStore 255) = none ∧
    (∀ (m : Manager) (cid : Nat) (sys : SystemS), MAX_COMPONENTS ≤ cid →
      systemsAddChecked m cid sys = none) := by
  refine ⟨rfl, ?_⟩
  intro m cid sys hge
  rw [systemsAddChecked, if_neg (by omega)]

/-- Closed witness for C6's general part at a concrete out-of-range id. -/
theorem C6_witness :
    systemsAddChecked initMgr (MAX_COMPONENTS + 7) (mkStore 3) = none :=
  C6_registration_overflow_unchecked.2 initMgr (MAX_COMPONENTS + 7) (mkStore 3)
    (by omega)
